import Mathlib

/-!
Verification of the tessellate-ai repository against its natural-language
specification.

Part I embeds the browser-side puzzle board logic (`PuzzleBoard` component:
`shuffleArray`, `handlePieceDragEnd`) from the TypeScript source.  JavaScript
numbers are modelled as rationals (`ℚ`): every arithmetic operation that
occurs in the embedded code (addition, subtraction, multiplication, division
by a nonzero constant, `Math.floor`, absolute value, comparisons) is exact on
the values involved, so `ℚ` is a faithful carrier.

Part II models the backend "Digital Cutter" core.  The Python sources
(`backend/agents/digital_cutter.py`, `backend/agents/pyjig_adapter.py`, the
edge-shape generation and rasterization code) are not present in the
repository snapshot: only their README, integration notes and requirements
file are.  Those components are therefore modelled from the specification
(sections 3 to 7 of `spec.md`), with each such definition marked
`Modelled from the spec:` in its doc comment.
-/

namespace Tessellate

/-! ## Part I: frontend puzzle board (from the TypeScript source) -/

/-- Swap of two positions of a list, modelling the destructuring swap
`[shuffled[i], shuffled[j]] = [shuffled[j], shuffled[i]]` in the
Fisher–Yates loop; out-of-range indices leave the list unchanged (the loop
never produces them). -/
def listSwap {α : Type} (l : List α) (i j : Nat) : List α :=
  match l[i]?, l[j]? with
  | some a, some b => (l.set i b).set j a
  | some _, none => l
  | none, _ => l

/-- Loop of the Fisher–Yates shuffle in `shuffleArray`
(`for (let i = shuffled.length - 1; i > 0; i--)`); `rand i` models the value
`Math.floor(Math.random() * (i + 1))` drawn at index `i`. -/
def fisherYatesAux {α : Type} (rand : Nat → Nat) : Nat → List α → List α
  | 0, l => l
  | i + 1, l => fisherYatesAux rand i (listSwap l (i + 1) (rand (i + 1)))

/-- The `shuffleArray` function of the `PuzzleBoard` component: copies the
input (`[...array]`) and runs the Fisher–Yates loop on the copy. -/
def shuffleArray {α : Type} (rand : Nat → Nat) (array : List α) : List α :=
  fisherYatesAux rand (array.length - 1) array

/-- The JavaScript `Math.abs` on rationals. -/
def mathAbs (q : ℚ) : ℚ := if q < 0 then -q else q

/-- Placement record of one puzzle piece in `manifest.pieces`:
`{ id, x, y }` with `x, y` the piece's home position in image pixels. -/
structure FVPiece where
  id : Int
  x : ℚ
  y : ℚ
deriving DecidableEq, Repr

/-- Per-piece entry of the board state `puzzleState.pieces[id]`. -/
structure FVPieceState where
  currentX : ℚ
  currentY : ℚ
  isPlaced : Bool
  isOnBoard : Bool
deriving DecidableEq, Repr

/-- The values captured by the `handlePieceDragEnd` closure: the manifest
pieces and grid, the stage geometry, and the derived layout constants
(`scale`, `puzzleOffsetX/Y`, `pieceWidth/Height`) computed in the component
body. -/
structure BoardEnv where
  pieces : List FVPiece
  gridRows : Int
  gridCols : Int
  stageHeight : ℚ
  trayHeight : ℚ
  scale : ℚ
  puzzleOffsetX : ℚ
  puzzleOffsetY : ℚ
  pieceWidth : ℚ
  pieceHeight : ℚ

/-- The mutable `puzzleState.pieces` object: a map from piece id to its
state; `none` models an absent key. -/
def PuzzleStateMap : Type := Int → Option FVPieceState

/-- Object update `{ ...prev.pieces, [pieceId]: v }`. -/
def updateState (st : PuzzleStateMap) (k : Int) (v : FVPieceState) :
    PuzzleStateMap :=
  fun k' => if k' = k then some v else st k'

/-- The four neighbor directions `(dRow, dCol)` checked by the
adjacent-piece snapping loop, in source order: top, bottom, left, right. -/
def neighborDeltas : List (Int × Int) := [(-1, 0), (1, 0), (0, -1), (0, 1)]

/-- Body of the `for (const neighbor of neighbors)` loop of
`handlePieceDragEnd`: scans the direction list, and on the first placed
neighbor within `adjacentSnapDistance = 30` of the expected offset position
returns that expected position (the `break`); otherwise continues. -/
def adjacentSnapLoop (env : BoardEnv) (st : PuzzleStateMap) (piece : FVPiece)
    (x y : ℚ) : List (Int × Int) → Option (ℚ × ℚ)
  | [] => none
  | (dr, dc) :: rest =>
    let row : Int := ⌊piece.y / env.pieceHeight⌋
    let col : Int := ⌊piece.x / env.pieceWidth⌋
    let nr := row + dr
    let nc := col + dc
    if 0 ≤ nr ∧ nr < env.gridRows ∧ 0 ≤ nc ∧ nc < env.gridCols then
      match env.pieces.find? (fun p =>
          (⌊p.y / env.pieceHeight⌋ == nr) && (⌊p.x / env.pieceWidth⌋ == nc)) with
      | some np =>
        match st np.id with
        | some ns =>
          if ns.isPlaced then
            let ex := env.puzzleOffsetX + piece.x * env.scale + (dc : ℚ) * env.pieceWidth
            let ey := env.puzzleOffsetY + piece.y * env.scale + (dr : ℚ) * env.pieceHeight
            if mathAbs (x - ex) < 30 ∧ mathAbs (y - ey) < 30 then some (ex, ey)
            else adjacentSnapLoop env st piece x y rest
          else adjacentSnapLoop env st piece x y rest
        | none => adjacentSnapLoop env st piece x y rest
      | none => adjacentSnapLoop env st piece x y rest
    else adjacentSnapLoop env st piece x y rest

/-- Adjacent-piece snapping pass of `handlePieceDragEnd`: result of the
neighbor loop over the four directions, `some (finalX, finalY)` when a snap
happened. -/
def adjacentSnap (env : BoardEnv) (st : PuzzleStateMap) (piece : FVPiece)
    (x y : ℚ) : Option (ℚ × ℚ) :=
  adjacentSnapLoop env st piece x y neighborDeltas

/-- The `handlePieceDragEnd` handler of the `PuzzleBoard` component
(`src/unnamed/part_004`).  Returns the updated `puzzleState.pieces` map and
a flag recording whether `localStorage.setItem` was invoked by this call
(the write inside the `setPuzzleState` updater). -/
def handlePieceDragEnd (env : BoardEnv) (st : PuzzleStateMap) (pieceId : Int)
    (x y : ℚ) : PuzzleStateMap × Bool :=
  match env.pieces.find? (fun p => p.id == pieceId) with
  | none => (st, false)
  | some piece =>
    let playAreaHeight := env.stageHeight - env.trayHeight
    let targetX := env.puzzleOffsetX + piece.x * env.scale
    let targetY := env.puzzleOffsetY + piece.y * env.scale
    let isOnBoard : Bool := decide (y < playAreaHeight)
    let snapped0 : Bool :=
      decide (mathAbs (x - targetX) < 40) && (decide (mathAbs (y - targetY) < 40) && isOnBoard)
    let adj : Option (ℚ × ℚ) :=
      bif !snapped0 && isOnBoard then adjacentSnap env st piece x y else none
    let finalX : ℚ := match adj with | some (ex, _) => ex | none => x
    let finalY : ℚ := match adj with | some (_, ey) => ey | none => y
    let isSnapped : Bool :=
      match adj with
      | some (ex, ey) => decide (mathAbs (ex - targetX) < 1) && decide (mathAbs (ey - targetY) < 1)
      | none => snapped0
    (updateState st pieceId
      { currentX := bif isSnapped then targetX else finalX
        currentY := bif isSnapped then targetY else finalY
        isPlaced := isSnapped
        isOnBoard := isOnBoard }, true)

/-! ## Part II: the Digital Cutter core, modelled from the specification

The Python sources of the cutter are absent from the snapshot; every
definition below is built from the contract language of `spec.md`
sections 3 to 7. -/

/-- Modelled from the spec: the closed set of cutting styles
(`CuttingStyle`, section 3); the backend module `core/models.py` carrying it
is missing from the snapshot. -/
inductive CuttingStyle where
  | classic
  | geometric
  | organic
deriving DecidableEq, Repr

/-- Modelled from the spec: edge orientation (section 3, `Edge`). -/
inductive Orientation where
  | horizontal
  | vertical
deriving DecidableEq, Repr

/-- Modelled from the spec: the immutable grid value (section 3): rows and
columns plus the source-image dimensions from which the cell size is
derived. -/
structure GridData where
  rows : Nat
  cols : Nat
  width : Nat
  height : Nat
deriving DecidableEq, Repr

/-- Modelled from the spec: cell width `width / cols` (need not be integral, section 3). -/
def cellW (g : GridData) : ℚ := (g.width : ℚ) / (g.cols : ℚ)

/-- Modelled from the spec: cell height `height / rows`. -/
def cellH (g : GridData) : ℚ := (g.height : ℚ) / (g.rows : ℚ)

/-- Modelled from the spec: the deterministic pseudo-random step driving
curve generation (section 4.1 requires a pure deterministic function of the
seed; the concrete generator source is missing, so a linear congruential
step stands in). -/
def lcg (s : Nat) : Nat := (1103515245 * s + 12345) % 2147483648

/-- Modelled from the spec: iterated pseudo-random steps: `lcgIter s k` is `lcg` applied `k + 1`
times to `s`. -/
def lcgIter (s : Nat) : Nat → Nat
  | 0 => lcg s
  | k + 1 => lcg (lcgIter s k)

/-- Modelled from the spec: mixing `(orientation, row, col, style, seed)`
into a per-edge seed, so each edge draws an independent deterministic
stream (section 4.1). -/
def mixSeed (seed : Nat) (o : Orientation) (r c : Nat) (style : CuttingStyle) : Nat :=
  lcg (seed + 2 * (r * 1000003 + c) +
    (match o with | .horizontal => 0 | .vertical => 1) +
    4 * (match style with | .classic => 0 | .geometric => 1 | .organic => 2))

/-- Modelled from the spec: a raw pseudo-random value mapped into the normalized displacement range
`[-1, 1]` of the edge frame (section 4.1: curves live in a normalized
coordinate frame along the edge). -/
def normDisp (v : Nat) : ℚ := ((v % 2001 : Nat) : ℚ) / 1000 - 1

/-- Modelled from the spec: number of interior control points per style;
each style is a distinct curve family (section 3, `CuttingStyle`). -/
def ctrlCount : CuttingStyle → Nat
  | .classic => 5
  | .geometric => 3
  | .organic => 7

/-- Modelled from the spec: `EdgeShapeGenerator` (section 4.1).  Given
`(orientation, row, col, style, rngSeed)` it returns the ordered control
displacements of the edge curve in the normalized frame: both endpoints sit
on the straight edge (displacement `0`) and the interior points are drawn
deterministically from the seed.  Pure function: identical inputs give
identical output by construction. -/
def EdgeShapeGenerator (o : Orientation) (r c : Nat) (style : CuttingStyle)
    (seed : Nat) : List ℚ :=
  let s0 := mixSeed seed o r c style
  0 :: ((List.range (ctrlCount style)).map (fun k => normDisp (lcgIter s0 k))) ++ [0]

/-- Modelled from the spec: the fair coin deciding which adjacent cell
receives the protrusion of an edge (section 4.2: "flips a fair coin per
edge to assign polarity"). -/
def edgePolarity (o : Orientation) (r c : Nat) (style : CuttingStyle)
    (seed : Nat) : Bool :=
  mixSeed seed o r c style % 2 == 0

/-- Modelled from the spec: one resolved internal edge of the `EdgeTable`:
its curve parameters and its polarity (section 3, `Edge`). -/
structure Edge where
  params : List ℚ
  polarity : Bool
deriving DecidableEq, Repr

/-- Modelled from the spec: the complete table of resolved internal edges
(section 4.2), as a total mapping from edge identity to its resolved data;
only internal indices (`r < rows - 1` for horizontal, `c < cols - 1` for
vertical) are ever consulted. -/
structure EdgeTable where
  hEdges : Nat → Nat → Edge
  vEdges : Nat → Nat → Edge

/-- Modelled from the spec: `EdgeTable.build grid style seed` resolves every
internal edge exactly once by calling the shape generator and the polarity
coin (section 4.2); the table is immutable afterwards and read identically
by both adjacent pieces. -/
def EdgeTable.build (style : CuttingStyle) (seed : Nat) : EdgeTable where
  hEdges := fun r c =>
    { params := EdgeShapeGenerator .horizontal r c style seed
      polarity := edgePolarity .horizontal r c style seed }
  vEdges := fun r c =>
    { params := EdgeShapeGenerator .vertical r c style seed
      polarity := edgePolarity .vertical r c style seed }

/-- Modelled from the spec: linear interpolation between two control displacements of a realized edge curve. -/
def interp (a b s : ℚ) : ℚ := (1 - s) * a + s * b

/-- Modelled from the spec: index of the control-point segment containing parameter `t` (clamped to
the valid segment range). -/
def segIdx (ds : List ℚ) (t : ℚ) : Nat :=
  min (Int.toNat ⌊t * ((ds.length - 1 : Nat) : ℚ)⌋) (ds.length - 2)

/-- Modelled from the spec: piecewise-linear realization of a control-displacement list over the
normalized parameter `t` (the concrete curve family of the missing source is
unknown; a piecewise-linear interpolation through the control points is the
spec-faithful stand-in: it passes through the generated points and stays
within their range). -/
def evalCurve (ds : List ℚ) (t : ℚ) : ℚ :=
  if ds.length ≤ 1 then ds.getD 0 0
  else
    interp (ds.getD (segIdx ds t) 0) (ds.getD (segIdx ds t + 1) 0)
      (t * ((ds.length - 1 : Nat) : ℚ) - (segIdx ds t : ℚ))

/-- Modelled from the spec: the tab-amplitude bound, a fraction of
`min(cellWidth, cellHeight)` (section 4.1, "typ. 20-30%"; one quarter is
used). -/
def amp (g : GridData) : ℚ := min (cellW g) (cellH g) / 4

/-- Modelled from the spec: sign carried by an edge's polarity: which side of the nominal line the
displacement protrudes towards. -/
def polaritySign (b : Bool) : ℚ := bif b then 1 else -1

/-- Modelled from the spec: index of the grid column whose horizontal span contains abscissa `x`
(clamped to the valid range). -/
def colIdx (g : GridData) (x : ℚ) : Nat :=
  min (Int.toNat ⌊x / cellW g⌋) (g.cols - 1)

/-- Modelled from the spec: index of the grid row whose vertical span contains ordinate `y`
(clamped to the valid range). -/
def rowIdx (g : GridData) (y : ℚ) : Nat :=
  min (Int.toNat ⌊y / cellH g⌋) (g.rows - 1)

/-- Modelled from the spec: the full horizontal cut curve number `i` (separating row `i` from row
`i + 1`) evaluated at abscissa `x`: the nominal line `(i + 1) * cellH`
displaced by the resolved edge of the column containing `x`, denormalized
by the amplitude bound and signed by the edge polarity (sections 4.1-4.3). -/
def hcut (g : GridData) (et : EdgeTable) (i : Nat) (x : ℚ) : ℚ :=
  let c := colIdx g x
  let e := et.hEdges i c
  ((i : ℚ) + 1) * cellH g +
    polaritySign e.polarity * amp g * evalCurve e.params (x / cellW g - (c : ℚ))

/-- Modelled from the spec: the full vertical cut curve number `j` (separating column `j` from
column `j + 1`) evaluated at ordinate `y`. -/
def vcut (g : GridData) (et : EdgeTable) (j : Nat) (y : ℚ) : ℚ :=
  let r := rowIdx g y
  let e := et.vEdges r j
  ((j : ℚ) + 1) * cellW g +
    polaritySign e.polarity * amp g * evalCurve e.params (y / cellH g - (r : ℚ))

/-- Modelled from the spec: top-side condition of row `r` at point `(x, y)`: on the grid border the
straight segment `y ≥ 0`, otherwise at or below cut `r - 1` (section 4.3). -/
def topOK (g : GridData) (et : EdgeTable) (r : Nat) (x y : ℚ) : Prop :=
  if r = 0 then (0 : ℚ) ≤ y else hcut g et (r - 1) x ≤ y

/-- Modelled from the spec: bottom-side condition of row `r`: strictly above cut `r` (or the bottom
border). -/
def botOK (g : GridData) (et : EdgeTable) (r : Nat) (x y : ℚ) : Prop :=
  if r = g.rows - 1 then y < (g.height : ℚ) else y < hcut g et r x

/-- Modelled from the spec: left-side condition of column `c`. -/
def leftOK (g : GridData) (et : EdgeTable) (c : Nat) (x y : ℚ) : Prop :=
  if c = 0 then (0 : ℚ) ≤ x else vcut g et (c - 1) y ≤ x

/-- Modelled from the spec: right-side condition of column `c`. -/
def rightOK (g : GridData) (et : EdgeTable) (c : Nat) (x y : ℚ) : Prop :=
  if c = g.cols - 1 then x < (g.width : ℚ) else x < vcut g et c y

/-- Modelled from the spec: point containment in the closed boundary path of
piece `(r, c)` (section 4.4's inside test).  A point is inside exactly when
it lies on the inner side of each of the piece's four realized edge curves;
on a shared curve the piece on one side uses `≤` and the neighbor the
strict `<` of the same curve, which is the complementary-membership
discipline of section 4.3. -/
def insideP (g : GridData) (et : EdgeTable) (r c : Nat) (x y : ℚ) : Prop :=
  topOK g et r x y ∧ botOK g et r x y ∧ leftOK g et c x y ∧ rightOK g et c x y

/-- Modelled from the spec: one side of a built piece path: either a straight border segment at a
fixed coordinate or a reference to a resolved shared edge of the table. -/
inductive PieceSide where
  | border (coord : ℚ)
  | cut (idx : Nat) (edge : Edge)
deriving DecidableEq, Repr

/-- Modelled from the spec: the four sides of a piece's closed boundary path. -/
structure PieceSides where
  top : PieceSide
  bottom : PieceSide
  left : PieceSide
  right : PieceSide
deriving DecidableEq, Repr

/-- Modelled from the spec: `PiecePathBuilder.build` (section 4.3): for each
of the four sides of cell `(r, c)`, a straight segment on the grid border,
otherwise the shared edge looked up in the table — never regenerated. -/
def PiecePathBuilder.build (g : GridData) (et : EdgeTable) (r c : Nat) :
    PieceSides where
  top := if r = 0 then .border 0 else .cut (r - 1) (et.hEdges (r - 1) c)
  bottom := if r = g.rows - 1 then .border (g.height : ℚ) else .cut r (et.hEdges r c)
  left := if c = 0 then .border 0 else .cut (c - 1) (et.vEdges r (c - 1))
  right := if c = g.cols - 1 then .border (g.width : ℚ) else .cut c (et.vEdges r c)

/-- Modelled from the spec: boundary of an output piece: the full curved path, or the plain cell
rectangle after fallback degradation (section 4.5). -/
inductive PieceBoundary where
  | curved (sides : PieceSides)
  | rect (x y w h : ℚ)
deriving DecidableEq, Repr

/-- Modelled from the spec: an output piece (section 3, `Piece`): id, grid
coordinates, boundary path, degradation flag, and nominal top-left
placement in source-image pixel space. -/
structure PieceOut where
  id : Nat
  row : Nat
  col : Nat
  boundary : PieceBoundary
  degraded : Bool
  px : ℚ
  py : ℚ

/-- Modelled from the spec: one manifest record `{ id, x, y }`
(section 6). -/
structure ManifestEntry where
  id : Nat
  x : ℚ
  y : ℚ
deriving DecidableEq, Repr

/-- Modelled from the spec: the manifest (section 6): a record per piece
plus grid dimensions and overall image size. -/
structure PuzzleManifest where
  width : Nat
  height : Nat
  gridRows : Nat
  gridCols : Nat
  pieces : List ManifestEntry

/-- Modelled from the spec: result of a successful cutting attempt
(section 4.6): pieces, manifest and aggregated per-piece warnings, along
with the published immutable grid data and edge table (section 5). -/
structure CutOutput where
  grid : GridData
  table : EdgeTable
  pieces : List PieceOut
  manifest : PuzzleManifest
  warnings : List Nat

/-- Modelled from the spec: the typed fatal failure of a cutting attempt
(section 7). -/
inductive CutError where
  | unreadableImage
  | invalidGrid
deriving DecidableEq, Repr

/-- Modelled from the spec: the decoded source image interface
(section 6). -/
structure SourceImage where
  width : Nat
  height : Nat
deriving DecidableEq, Repr

/-- Modelled from the spec: the external converter environment of the
Classic-style fallback chain (section 4.5): for each piece id, the
success/failure outcome of each converter of the ordered chain at that
piece's conversion attempt. -/
def ConvEnv : Type := Nat → List Bool

/-- Modelled from the spec: the fallback chain succeeds for piece `i` when some converter in the
chain succeeds (the first success wins; which one wins does not change the
produced raster's provenance flag). -/
def chainSucceeds (env : ConvEnv) (i : Nat) : Bool :=
  (env i).any (fun b => b)

/-- Modelled from the spec: assembling and rasterizing one piece
(sections 4.3-4.5): the curved path from the builder, unless the piece uses
the Classic vector route and every converter failed, in which case the
boundary degrades to the plain cell rectangle and the piece is flagged. -/
def mkPiece (g : GridData) (et : EdgeTable) (style : CuttingStyle)
    (env : ConvEnv) (r c : Nat) : PieceOut :=
  let i := r * g.cols + c
  let degraded : Bool := (style == CuttingStyle.classic) && !(chainSucceeds env i)
  { id := i, row := r, col := c
    boundary :=
      bif degraded then
        .rect ((c : ℚ) * cellW g) ((r : ℚ) * cellH g) (cellW g) (cellH g)
      else .curved (PiecePathBuilder.build g et r c)
    degraded := degraded
    px := (c : ℚ) * cellW g
    py := (r : ℚ) * cellH g }

/-- Modelled from the spec: the phase-1 + phase-2 body of
`CuttingOrchestrator.cut` on validated input (section 4.6): build the edge
table once, then assemble and rasterize every piece row-major, aggregate
the manifest and the per-piece degradation warnings. -/
def cutCore (im : SourceImage) (rows cols : Nat) (style : CuttingStyle)
    (seed : Nat) (env : ConvEnv) : CutOutput :=
  let g : GridData := ⟨rows, cols, im.width, im.height⟩
  let et := EdgeTable.build style seed
  let pieces := (List.range rows).flatMap
    (fun r => (List.range cols).map (fun c => mkPiece g et style env r c))
  { grid := g
    table := et
    pieces := pieces
    manifest :=
      { width := im.width, height := im.height
        gridRows := rows, gridCols := cols
        pieces := pieces.map (fun p => ⟨p.id, p.px, p.py⟩) }
    warnings := (pieces.filter (fun p => p.degraded)).map (fun p => p.id) }

/-- Modelled from the spec: `CuttingOrchestrator.cut` (section 4.6): fails
with a typed error and no output exactly when the source image cannot be
read or the grid dimensions are invalid (`rows/cols < 1`, or cell size
resolving to zero or negative); otherwise runs the core. -/
def cut (img : Option SourceImage) (rows cols : Nat) (style : CuttingStyle)
    (seed : Nat) (env : ConvEnv) : Except CutError CutOutput :=
  match img with
  | none => .error .unreadableImage
  | some im =>
    if rows < 1 ∨ cols < 1 then .error .invalidGrid
    else if cellW ⟨rows, cols, im.width, im.height⟩ ≤ 0 ∨
            cellH ⟨rows, cols, im.width, im.height⟩ ≤ 0 then .error .invalidGrid
    else .ok (cutCore im rows cols style seed env)

/-- Modelled from the spec: the Rasterizer's per-point alpha test
(section 4.4), ignoring the one-pixel anti-aliased boundary band: a point is
filled (alpha 255) exactly when it is contained in the boundary path — the
shared-cut containment test for a curved path of piece `(r, c)`, the plain
rectangle test for a degraded piece. -/
def boundaryFilled (g : GridData) (et : EdgeTable) (r c : Nat) :
    PieceBoundary → ℚ → ℚ → Prop
  | .curved _, x, y => insideP g et r c x y
  | .rect rx ry rw rh, x, y => rx ≤ x ∧ x < rx + rw ∧ ry ≤ y ∧ y < ry + rh

/-- Modelled from the spec: filled test of an output piece at a point in source-image coordinates
(the bounding-box offset of section 4.4 composes the piece-local pixel with
the placement offset; the composition is the identity on source
coordinates, which is what the tiling invariant quantifies over). -/
def pieceFilled (g : GridData) (et : EdgeTable) (p : PieceOut) (x y : ℚ) :
    Prop :=
  boundaryFilled g et p.row p.col p.boundary x y

/-- Modelled from the spec: source pixel `(px, py)` (sampled at its center) belongs to the filled
region of piece `(r, c)` of a cut output. -/
def pieceFilledAt (out : CutOutput) (r c : Nat) (px py : Nat) : Prop :=
  ∃ p, out.pieces[r * out.grid.cols + c]? = some p ∧
    pieceFilled out.grid out.table p ((px : ℚ) + 1/2) ((py : ℚ) + 1/2)


/-! ## Theorems -/

theorem mathAbs_eq_abs (q : ℚ) : mathAbs q = |q| := by
  unfold mathAbs
  rcases lt_or_ge q 0 with h | h
  · rw [if_pos h, abs_of_neg h]
  · rw [if_neg (not_lt.mpr h), abs_of_nonneg h]

/-! ### Permutation lemmas for the Fisher–Yates shuffle -/

theorem swap_head_perm {α : Type} (d : α) :
    ∀ (t : List α) (k : Nat), k < t.length → ∀ a : α,
      (t.getD k d :: t.set k a).Perm (a :: t)
  | b :: s, 0, _, a => by
    simpa using List.Perm.swap a b s
  | b :: s, k + 1, hk, a => by
    have hk' : k < s.length := by simpa using hk
    have ih := swap_head_perm d s k hk' a
    have h1 : (s.getD k d :: b :: s.set k a).Perm (b :: s.getD k d :: s.set k a) :=
      List.Perm.swap _ _ _
    have h2 : (b :: s.getD k d :: s.set k a).Perm (b :: a :: s) := ih.cons b
    have h3 : (b :: a :: s).Perm (a :: b :: s) := List.Perm.swap _ _ _
    exact (h1.trans h2).trans h3

theorem set_set_getD_perm {α : Type} (d : α) :
    ∀ (l : List α) (i j : Nat), i < l.length → j < l.length →
      ((l.set i (l.getD j d)).set j (l.getD i d)).Perm l
  | a :: t, 0, 0, _, _ => by simp
  | a :: t, 0, k + 1, _, hj => by
    have hk : k < t.length := by simpa using hj
    simpa using swap_head_perm d t k hk a
  | a :: t, m + 1, 0, hi, _ => by
    have hm : m < t.length := by simpa using hi
    simpa using swap_head_perm d t m hm a
  | a :: t, m + 1, k + 1, hi, hj => by
    have hm : m < t.length := by simpa using hi
    have hk : k < t.length := by simpa using hj
    simpa using (set_set_getD_perm d t m k hm hk).cons a

theorem listSwap_perm {α : Type} (l : List α) (i j : Nat) :
    (listSwap l i j).Perm l := by
  unfold listSwap
  rcases h1 : l[i]? with _ | a
  · exact List.Perm.refl l
  rcases h2 : l[j]? with _ | b
  · exact List.Perm.refl l
  have hi : i < l.length := by
    rcases List.getElem?_eq_some.mp h1 with ⟨h, _⟩; exact h
  have hj : j < l.length := by
    rcases List.getElem?_eq_some.mp h2 with ⟨h, _⟩; exact h
  have ha : l.getD i a = a := by
    simp [List.getD, h1]
  have hb : l.getD j a = b := by
    simp [List.getD, h2]
  have := set_set_getD_perm a l i j hi hj
  rwa [ha, hb] at this

theorem fisherYatesAux_perm {α : Type} (rand : Nat → Nat) :
    ∀ (i : Nat) (l : List α), (fisherYatesAux rand i l).Perm l
  | 0, l => List.Perm.refl l
  | i + 1, l =>
    (fisherYatesAux_perm rand i (listSwap l (i + 1) (rand (i + 1)))).trans
      (listSwap_perm l (i + 1) (rand (i + 1)))

/-- C9: for every input array and every sequence of random draws, the
`shuffleArray` function of the `PuzzleBoard` component returns a permutation
of its input: the same elements with the same multiplicities and the same
length.  The input list itself is untouched: `shuffleArray` copies the input
(`[...array]`) and all swaps act on the copy, which the embedding reflects by
building the result from the copied value. -/
theorem shuffleArray_is_permutation {α : Type} (rand : Nat → Nat)
    (array : List α) :
    (shuffleArray rand array).Perm array ∧
    (shuffleArray rand array).length = array.length := by
  have h : (shuffleArray rand array).Perm array :=
    fisherYatesAux_perm rand (array.length - 1) array
  exact ⟨h, h.length_eq⟩

/-- C10: calling `handlePieceDragEnd` with a `pieceId` matching no manifest
piece (`manifest.pieces.find` returns `undefined`) leaves the puzzle state
exactly as it was and performs no `localStorage` write: the handler returns
at `if (!piece) return` before any state update. -/
theorem handlePieceDragEnd_unknown_id (env : BoardEnv) (st : PuzzleStateMap)
    (pieceId : Int) (x y : ℚ)
    (hfind : env.pieces.find? (fun p => p.id == pieceId) = none) :
    handlePieceDragEnd env st pieceId x y = (st, false) := by
  unfold handlePieceDragEnd
  rw [hfind]

/-- Witness for C10 at a concrete input: a board whose manifest holds only
the piece with id `7`, dropped id `5` at position `(3, 4)`. -/
theorem handlePieceDragEnd_unknown_id_witness :
    ([⟨7, 0, 0⟩] : List FVPiece).find? (fun p => p.id == (5 : Int)) = none ∧
    handlePieceDragEnd
      { pieces := [⟨7, 0, 0⟩], gridRows := 1, gridCols := 1,
        stageHeight := 600, trayHeight := 160, scale := 1,
        puzzleOffsetX := 0, puzzleOffsetY := 0,
        pieceWidth := 128, pieceHeight := 128 }
      (fun _ => none) 5 3 4 = ((fun _ => none : PuzzleStateMap), false) :=
  ⟨by decide, handlePieceDragEnd_unknown_id _ _ 5 3 4 (by decide)⟩

/-- C8: whenever `handlePieceDragEnd` marks the dropped piece as placed, the
drop either landed on the board (`y < stageHeight - trayHeight`) within the
snap distance 40 of the piece's target position
`(puzzleOffsetX + piece.x * scale, puzzleOffsetY + piece.y * scale)`, or the
adjacent-piece snapping pass produced a position within 1 pixel of the
target; and in every placed case the stored position is exactly the target
position. -/
theorem handlePieceDragEnd_placed_iff (env : BoardEnv) (st : PuzzleStateMap)
    (pieceId : Int) (x y : ℚ) (piece : FVPiece)
    (hfind : env.pieces.find? (fun p => p.id == pieceId) = some piece)
    (ps : FVPieceState)
    (hps : (handlePieceDragEnd env st pieceId x y).1 pieceId = some ps)
    (hplaced : ps.isPlaced = true) :
    ((y < env.stageHeight - env.trayHeight ∧
      mathAbs (x - (env.puzzleOffsetX + piece.x * env.scale)) < 40 ∧
      mathAbs (y - (env.puzzleOffsetY + piece.y * env.scale)) < 40) ∨
     (∃ ex ey, adjacentSnap env st piece x y = some (ex, ey) ∧
      mathAbs (ex - (env.puzzleOffsetX + piece.x * env.scale)) < 1 ∧
      mathAbs (ey - (env.puzzleOffsetY + piece.y * env.scale)) < 1)) ∧
    ps.currentX = env.puzzleOffsetX + piece.x * env.scale ∧
    ps.currentY = env.puzzleOffsetY + piece.y * env.scale := by
  unfold handlePieceDragEnd at hps
  rw [hfind] at hps
  simp only [updateState, eq_self_iff_true, if_true] at hps
  set tX := env.puzzleOffsetX + piece.x * env.scale with htX
  set tY := env.puzzleOffsetY + piece.y * env.scale with htY
  by_cases hob : y < env.stageHeight - env.trayHeight
  · have dob := decide_eq_true hob
    by_cases hsx : mathAbs (x - tX) < 40
    · have dsx := decide_eq_true hsx
      by_cases hsy : mathAbs (y - tY) < 40
      · -- direct snap: the adjacent pass is skipped
        have dsy := decide_eq_true hsy
        simp only [dob, dsx, dsy, Bool.and_self, Bool.and_true, Bool.true_and,
          Bool.not_true, Bool.false_and, Bool.cond_false] at hps
        injection hps with h
        subst h
        exact ⟨Or.inl ⟨hob, hsx, hsy⟩, rfl, rfl⟩
      · -- too far vertically: snapped0 is false, adjacent pass runs
        have dsy := decide_eq_false hsy
        simp only [dob, dsx, dsy, Bool.false_and, Bool.and_false, Bool.true_and,
          Bool.and_true, Bool.not_false, Bool.and_self, Bool.cond_true] at hps
        rcases hadj : adjacentSnap env st piece x y with _ | ⟨ex, ey⟩ <;>
          simp only [hadj] at hps
        · injection hps with h
          subst h
          simp at hplaced
        · by_cases h1 : mathAbs (ex - tX) < 1
          · by_cases h2 : mathAbs (ey - tY) < 1
            · simp only [decide_eq_true h1, decide_eq_true h2, Bool.and_self,
                Bool.cond_true] at hps
              injection hps with h
              subst h
              exact ⟨Or.inr ⟨ex, ey, rfl, h1, h2⟩, rfl, rfl⟩
            · simp only [decide_eq_true h1, decide_eq_false h2, Bool.and_false,
                Bool.true_and, Bool.cond_false] at hps
              injection hps with h
              subst h
              simp at hplaced
          · simp only [decide_eq_false h1, Bool.false_and, Bool.cond_false] at hps
            injection hps with h
            subst h
            simp at hplaced
    · -- too far horizontally: snapped0 is false, adjacent pass runs
      have dsx := decide_eq_false hsx
      simp only [dob, dsx, Bool.false_and, Bool.and_false, Bool.true_and,
        Bool.and_true, Bool.not_false, Bool.and_self, Bool.cond_true] at hps
      rcases hadj : adjacentSnap env st piece x y with _ | ⟨ex, ey⟩ <;>
        simp only [hadj] at hps
      · injection hps with h
        subst h
        simp at hplaced
      · by_cases h1 : mathAbs (ex - tX) < 1
        · by_cases h2 : mathAbs (ey - tY) < 1
          · simp only [decide_eq_true h1, decide_eq_true h2, Bool.and_self,
              Bool.cond_true] at hps
            injection hps with h
            subst h
            exact ⟨Or.inr ⟨ex, ey, rfl, h1, h2⟩, rfl, rfl⟩
          · simp only [decide_eq_true h1, decide_eq_false h2, Bool.and_false,
              Bool.true_and, Bool.cond_false] at hps
            injection hps with h
            subst h
            simp at hplaced
        · simp only [decide_eq_false h1, Bool.false_and, Bool.cond_false] at hps
          injection hps with h
          subst h
          simp at hplaced
  · -- off the board: isOnBoard is false, everything falls through
    have dob := decide_eq_false hob
    simp only [dob, Bool.and_false, Bool.false_and, Bool.and_self,
      Bool.cond_false] at hps
    injection hps with h
    subst h
    simp at hplaced

/-- Witness for C8 at a concrete input: a 1-by-1 board with one piece whose
target is `(100, 50)`, dropped at `(110, 60)`: the drop is on the board and
within the snap distance, and the stored position is exactly the target. -/
theorem handlePieceDragEnd_placed_iff_witness :
    (([⟨0, 0, 0⟩] : List FVPiece).find? (fun p => p.id == (0 : Int)) =
      some ⟨0, 0, 0⟩ ∧
     (handlePieceDragEnd
        { pieces := [⟨0, 0, 0⟩], gridRows := 1, gridCols := 1,
          stageHeight := 600, trayHeight := 160, scale := 1,
          puzzleOffsetX := 100, puzzleOffsetY := 50,
          pieceWidth := 128, pieceHeight := 128 }
        (fun _ => none) 0 110 60).1 0 =
      some ⟨100, 50, true, true⟩) ∧
    (((60 : ℚ) < 600 - 160 ∧
      mathAbs ((110 : ℚ) - (100 + 0 * 1)) < 40 ∧
      mathAbs ((60 : ℚ) - (50 + 0 * 1)) < 40) ∨
     (∃ ex ey,
      adjacentSnap
        { pieces := [⟨0, 0, 0⟩], gridRows := 1, gridCols := 1,
          stageHeight := 600, trayHeight := 160, scale := 1,
          puzzleOffsetX := 100, puzzleOffsetY := 50,
          pieceWidth := 128, pieceHeight := 128 }
        (fun _ => none) ⟨0, 0, 0⟩ 110 60 = some (ex, ey) ∧
      mathAbs (ex - (100 + 0 * 1)) < 1 ∧ mathAbs (ey - (50 + 0 * 1)) < 1)) ∧
    (100 : ℚ) = 100 + 0 * 1 ∧ (50 : ℚ) = 50 + 0 * 1 := by
  have hfind : ([⟨0, 0, 0⟩] : List FVPiece).find? (fun p => p.id == (0 : Int)) =
      some ⟨0, 0, 0⟩ := by decide
  have hob : (60 : ℚ) < 600 - 160 := by norm_num
  have hsx : mathAbs ((110 : ℚ) - (100 + 0 * 1)) < 40 := by norm_num [mathAbs]
  have hsy : mathAbs ((60 : ℚ) - (50 + 0 * 1)) < 40 := by norm_num [mathAbs]
  have hps : (handlePieceDragEnd
      { pieces := [⟨0, 0, 0⟩], gridRows := 1, gridCols := 1,
        stageHeight := 600, trayHeight := 160, scale := 1,
        puzzleOffsetX := 100, puzzleOffsetY := 50,
        pieceWidth := 128, pieceHeight := 128 }
      (fun _ => none) 0 110 60).1 0 = some ⟨100, 50, true, true⟩ := by
    unfold handlePieceDragEnd
    simp only [hfind, updateState, decide_eq_true hob, decide_eq_true hsx,
      decide_eq_true hsy, Bool.and_self, Bool.and_true, Bool.true_and,
      Bool.not_true, Bool.false_and, Bool.cond_false]
    norm_num
  exact ⟨⟨hfind, hps⟩,
    handlePieceDragEnd_placed_iff _ _ 0 110 60 ⟨0, 0, 0⟩ hfind
      ⟨100, 50, true, true⟩ hps rfl⟩

/-! ### Numeric groundwork: cell sizes, amplitude and curve bounds -/

theorem cellW_pos (g : GridData) (hc : 1 ≤ g.cols) (hw : 1 ≤ g.width) :
    0 < cellW g := by
  unfold cellW
  exact div_pos (by exact_mod_cast Nat.lt_of_lt_of_le Nat.zero_lt_one hw)
    (by exact_mod_cast Nat.lt_of_lt_of_le Nat.zero_lt_one hc)

theorem cellH_pos (g : GridData) (hr : 1 ≤ g.rows) (hh : 1 ≤ g.height) :
    0 < cellH g := by
  unfold cellH
  exact div_pos (by exact_mod_cast Nat.lt_of_lt_of_le Nat.zero_lt_one hh)
    (by exact_mod_cast Nat.lt_of_lt_of_le Nat.zero_lt_one hr)

theorem cols_mul_cellW (g : GridData) (hc : 1 ≤ g.cols) :
    (g.cols : ℚ) * cellW g = (g.width : ℚ) := by
  unfold cellW
  have h : (g.cols : ℚ) ≠ 0 := by
    exact_mod_cast Nat.one_le_iff_ne_zero.mp hc
  field_simp

theorem rows_mul_cellH (g : GridData) (hr : 1 ≤ g.rows) :
    (g.rows : ℚ) * cellH g = (g.height : ℚ) := by
  unfold cellH
  have h : (g.rows : ℚ) ≠ 0 := by
    exact_mod_cast Nat.one_le_iff_ne_zero.mp hr
  field_simp

theorem amp_nonneg (g : GridData) (hcW : 0 < cellW g) (hcH : 0 < cellH g) :
    0 ≤ amp g := by
  unfold amp
  have h : 0 ≤ min (cellW g) (cellH g) := le_min hcW.le hcH.le
  linarith

theorem amp_le_quarter_cellH (g : GridData) : amp g ≤ cellH g / 4 := by
  unfold amp
  have h := min_le_right (cellW g) (cellH g)
  linarith

theorem amp_le_quarter_cellW (g : GridData) : amp g ≤ cellW g / 4 := by
  unfold amp
  have h := min_le_left (cellW g) (cellH g)
  linarith

theorem normDisp_abs_le (v : Nat) : |normDisp v| ≤ 1 := by
  unfold normDisp
  have h1 : v % 2001 ≤ 2000 := by omega
  have h2 : ((v % 2001 : Nat) : ℚ) ≤ 2000 := by exact_mod_cast h1
  have h3 : (0 : ℚ) ≤ ((v % 2001 : Nat) : ℚ) := Nat.cast_nonneg _
  rw [abs_le]
  constructor <;> linarith

theorem gen_params_abs_le (o : Orientation) (r c : Nat) (style : CuttingStyle)
    (seed : Nat) : ∀ d ∈ EdgeShapeGenerator o r c style seed, |d| ≤ 1 := by
  intro d hd
  unfold EdgeShapeGenerator at hd
  rcases List.mem_cons.mp hd with rfl | hd'
  · simp
  rcases List.mem_append.mp hd' with hmap | hz
  · rcases List.mem_map.mp hmap with ⟨k, _, rfl⟩
    exact normDisp_abs_le _
  · rcases List.mem_singleton.mp hz with rfl
    simp

theorem getD_abs_le (ds : List ℚ) (hd : ∀ d ∈ ds, |d| ≤ 1) (i : Nat) :
    |ds.getD i 0| ≤ 1 := by
  rcases h : ds[i]? with _ | a
  · simp [List.getD_eq_getElem?_getD, h]
  · rw [List.getD_eq_getElem?_getD, h]
    rcases List.getElem?_eq_some.mp h with ⟨hlt, he⟩
    exact he ▸ hd _ (List.getElem_mem hlt)

theorem interp_abs_le (a b s : ℚ) (ha : |a| ≤ 1) (hb : |b| ≤ 1)
    (hs0 : 0 ≤ s) (hs1 : s ≤ 1) : |interp a b s| ≤ 1 := by
  unfold interp
  have h1 : |(1 - s) * a| ≤ (1 - s) * 1 := by
    rw [abs_mul, abs_of_nonneg (by linarith : (0:ℚ) ≤ 1 - s)]
    exact mul_le_mul_of_nonneg_left ha (by linarith)
  have h2 : |s * b| ≤ s * 1 := by
    rw [abs_mul, abs_of_nonneg hs0]
    exact mul_le_mul_of_nonneg_left hb hs0
  have h3 := abs_add ((1 - s) * a) (s * b)
  linarith

theorem evalCurve_abs_le (ds : List ℚ) (t : ℚ) (hd : ∀ d ∈ ds, |d| ≤ 1)
    (ht0 : 0 ≤ t) (ht1 : t < 1) : |evalCurve ds t| ≤ 1 := by
  unfold evalCurve
  by_cases hlen : ds.length ≤ 1
  · rw [if_pos hlen]
    exact getD_abs_le ds hd 0
  · rw [if_neg hlen]
    have hn1 : 1 ≤ ds.length - 1 := by omega
    set n : Nat := ds.length - 1 with hn
    set u : ℚ := t * (n : ℚ) with hu
    have hnq : (0 : ℚ) < (n : ℚ) := by exact_mod_cast Nat.lt_of_lt_of_le Nat.zero_lt_one hn1
    have hu0 : 0 ≤ u := mul_nonneg ht0 (Nat.cast_nonneg n)
    have hun : u < (n : ℚ) := by
      have := mul_lt_mul_of_pos_right ht1 hnq
      simpa using this
    have hfl0 : 0 ≤ ⌊u⌋ := Int.floor_nonneg.mpr hu0
    have hfln : ⌊u⌋ < (n : ℤ) := Int.floor_lt.mpr (by exact_mod_cast hun)
    have hseg : segIdx ds t = Int.toNat ⌊u⌋ := by
      unfold segIdx
      rw [← hn, ← hu]
      exact min_eq_left (by omega)
    have hsegq : ((segIdx ds t : Nat) : ℚ) = ((⌊u⌋ : ℤ) : ℚ) := by
      rw [hseg]
      exact_mod_cast congrArg (fun z : ℤ => (z : ℚ)) (Int.toNat_of_nonneg hfl0)
    apply interp_abs_le _ _ _ (getD_abs_le ds hd _) (getD_abs_le ds hd _)
    · rw [hsegq]
      have := Int.floor_le u
      linarith
    · rw [hsegq]
      have := Int.lt_floor_add_one u
      linarith

theorem polaritySign_abs (b : Bool) : |polaritySign b| = 1 := by
  cases b <;> simp [polaritySign]

theorem idx_frac_eq (cell z : ℚ) (count : Nat) (hcell : 0 < cell) (hz0 : 0 ≤ z)
    (hz1 : z < (count : ℚ) * cell) :
    ((min (Int.toNat ⌊z / cell⌋) (count - 1) : Nat) : ℚ) = ((⌊z / cell⌋ : ℤ) : ℚ) ∧
    0 ≤ z / cell - ((min (Int.toNat ⌊z / cell⌋) (count - 1) : Nat) : ℚ) ∧
    z / cell - ((min (Int.toNat ⌊z / cell⌋) (count - 1) : Nat) : ℚ) < 1 := by
  have hq0 : 0 ≤ z / cell := div_nonneg hz0 hcell.le
  have hqc : z / cell < (count : ℚ) := by
    rw [div_lt_iff₀ hcell]
    linarith
  have hfl0 : 0 ≤ ⌊z / cell⌋ := Int.floor_nonneg.mpr hq0
  have hflc : ⌊z / cell⌋ < (count : ℤ) := Int.floor_lt.mpr (by exact_mod_cast hqc)
  have hmin : min (Int.toNat ⌊z / cell⌋) (count - 1) = Int.toNat ⌊z / cell⌋ :=
    min_eq_left (by omega)
  have hcast : ((min (Int.toNat ⌊z / cell⌋) (count - 1) : Nat) : ℚ) =
      ((⌊z / cell⌋ : ℤ) : ℚ) := by
    rw [hmin]
    exact_mod_cast congrArg (fun w : ℤ => (w : ℚ)) (Int.toNat_of_nonneg hfl0)
  refine ⟨hcast, ?_, ?_⟩
  · rw [hcast]
    have := Int.floor_le (z / cell)
    linarith
  · rw [hcast]
    have := Int.lt_floor_add_one (z / cell)
    linarith

/-- The realized horizontal cut `i` stays within the amplitude bound of its
nominal line, for any in-range abscissa. -/
theorem hcut_bounds (g : GridData) (style : CuttingStyle) (seed : Nat)
    (i : Nat) (x : ℚ)
    (hr : 1 ≤ g.rows) (hc : 1 ≤ g.cols) (hw : 1 ≤ g.width) (hh : 1 ≤ g.height)
    (hx0 : 0 ≤ x) (hx1 : x < (g.width : ℚ)) :
    ((i : ℚ) + 1) * cellH g - amp g ≤ hcut g (EdgeTable.build style seed) i x ∧
    hcut g (EdgeTable.build style seed) i x ≤ ((i : ℚ) + 1) * cellH g + amp g := by
  have hcW := cellW_pos g hc hw
  have hcH := cellH_pos g hr hh
  have hxw : x < (g.cols : ℚ) * cellW g := by
    rw [cols_mul_cellW g hc]; exact hx1
  obtain ⟨hidxq, ht0, ht1⟩ := idx_frac_eq (cellW g) x g.cols hcW hx0 hxw
  have hparams : ∀ d ∈ ((EdgeTable.build style seed).hEdges i (colIdx g x)).params,
      |d| ≤ 1 := by
    simp only [EdgeTable.build]
    exact gen_params_abs_le _ _ _ _ _
  have hcurve : |evalCurve ((EdgeTable.build style seed).hEdges i (colIdx g x)).params
      (x / cellW g - (colIdx g x : ℚ))| ≤ 1 := by
    apply evalCurve_abs_le _ _ hparams
    · exact ht0
    · exact ht1
  have hamp0 : 0 ≤ amp g := amp_nonneg g hcW hcH
  have hdisp : |polaritySign ((EdgeTable.build style seed).hEdges i (colIdx g x)).polarity *
      amp g * evalCurve ((EdgeTable.build style seed).hEdges i (colIdx g x)).params
      (x / cellW g - (colIdx g x : ℚ))| ≤ amp g := by
    rw [abs_mul, abs_mul, polaritySign_abs, one_mul, abs_of_nonneg hamp0]
    calc amp g * |evalCurve _ _| ≤ amp g * 1 := mul_le_mul_of_nonneg_left hcurve hamp0
      _ = amp g := mul_one _
  rw [abs_le] at hdisp
  unfold hcut
  constructor <;> [linarith [hdisp.1]; linarith [hdisp.2]]

/-- The realized vertical cut `j` stays within the amplitude bound of its
nominal line, for any in-range ordinate. -/
theorem vcut_bounds (g : GridData) (style : CuttingStyle) (seed : Nat)
    (j : Nat) (y : ℚ)
    (hr : 1 ≤ g.rows) (hc : 1 ≤ g.cols) (hw : 1 ≤ g.width) (hh : 1 ≤ g.height)
    (hy0 : 0 ≤ y) (hy1 : y < (g.height : ℚ)) :
    ((j : ℚ) + 1) * cellW g - amp g ≤ vcut g (EdgeTable.build style seed) j y ∧
    vcut g (EdgeTable.build style seed) j y ≤ ((j : ℚ) + 1) * cellW g + amp g := by
  have hcW := cellW_pos g hc hw
  have hcH := cellH_pos g hr hh
  have hyh : y < (g.rows : ℚ) * cellH g := by
    rw [rows_mul_cellH g hr]; exact hy1
  obtain ⟨hidxq, ht0, ht1⟩ := idx_frac_eq (cellH g) y g.rows hcH hy0 hyh
  have hparams : ∀ d ∈ ((EdgeTable.build style seed).vEdges (rowIdx g y) j).params,
      |d| ≤ 1 := by
    simp only [EdgeTable.build]
    exact gen_params_abs_le _ _ _ _ _
  have hcurve : |evalCurve ((EdgeTable.build style seed).vEdges (rowIdx g y) j).params
      (y / cellH g - (rowIdx g y : ℚ))| ≤ 1 := by
    apply evalCurve_abs_le _ _ hparams
    · exact ht0
    · exact ht1
  have hamp0 : 0 ≤ amp g := amp_nonneg g hcW hcH
  have hdisp : |polaritySign ((EdgeTable.build style seed).vEdges (rowIdx g y) j).polarity *
      amp g * evalCurve ((EdgeTable.build style seed).vEdges (rowIdx g y) j).params
      (y / cellH g - (rowIdx g y : ℚ))| ≤ amp g := by
    rw [abs_mul, abs_mul, polaritySign_abs, one_mul, abs_of_nonneg hamp0]
    calc amp g * |evalCurve _ _| ≤ amp g * 1 := mul_le_mul_of_nonneg_left hcurve hamp0
      _ = amp g := mul_one _
  rw [abs_le] at hdisp
  unfold vcut
  constructor <;> [linarith [hdisp.1]; linarith [hdisp.2]]

/-! ### The generic band partition argument -/

/-- A strictly increasing family of `n - 1` cut values strictly between `0`
and `H` assigns every `y` in `[0, H)` to exactly one of the `n` bands, where
band `r` is bounded below by cut `r - 1` (inclusive) and above by cut `r`
(exclusive). -/
theorem band_unique (f : Nat → ℚ) (n : Nat) (H y : ℚ) (hn : 1 ≤ n)
    (hmono : ∀ i j, i < j → j + 1 < n → f i < f j)
    (hy0 : 0 ≤ y) (hyH : y < H) :
    ∃! r : Nat, r < n ∧ (if r = 0 then (0 : ℚ) ≤ y else f (r - 1) ≤ y) ∧
      (if r = n - 1 then y < H else y < f r) := by
  classical
  set R := ((Finset.range (n - 1)).filter (fun i => f i ≤ y)).card with hR
  have hRle : R ≤ n - 1 := by
    rw [hR]
    calc ((Finset.range (n - 1)).filter (fun i => f i ≤ y)).card
        ≤ (Finset.range (n - 1)).card := Finset.card_filter_le _ _
      _ = n - 1 := Finset.card_range _
  have hb : ∀ i, i < n - 1 → (f i ≤ y ↔ i < R) := by
    intro i hi
    constructor
    · intro hfi
      have hsub : Finset.range (i + 1) ⊆
          (Finset.range (n - 1)).filter (fun k => f k ≤ y) := by
        intro k hk
        rw [Finset.mem_range] at hk
        rw [Finset.mem_filter, Finset.mem_range]
        refine ⟨by omega, ?_⟩
        rcases Nat.lt_or_ge k i with hki | hki
        · exact le_of_lt (lt_of_lt_of_le (hmono k i hki (by omega)) hfi)
        · have hk' : k = i := by omega
          rw [hk']; exact hfi
      have hcard := Finset.card_le_card hsub
      rw [Finset.card_range] at hcard
      omega
    · intro hiR
      by_contra hfy
      push_neg at hfy
      have hsub : (Finset.range (n - 1)).filter (fun k => f k ≤ y) ⊆
          Finset.range i := by
        intro k hk
        rw [Finset.mem_filter, Finset.mem_range] at hk
        rw [Finset.mem_range]
        by_contra hik
        push_neg at hik
        rcases Nat.lt_or_ge i k with hik' | hik'
        · have := hmono i k hik' (by omega)
          linarith [hk.2]
        · have hk' : i = k := by omega
          rw [hk'] at hfy
          linarith [hk.2]
      have hcard := Finset.card_le_card hsub
      rw [Finset.card_range] at hcard
      omega
  refine ⟨R, ⟨by omega, ?_, ?_⟩, ?_⟩
  · by_cases hR0 : R = 0
    · rw [if_pos hR0]; exact hy0
    · rw [if_neg hR0]
      exact (hb (R - 1) (by omega)).mpr (by omega)
  · by_cases hRn : R = n - 1
    · rw [if_pos hRn]; exact hyH
    · rw [if_neg hRn]
      by_contra hyf
      push_neg at hyf
      have := (hb R (by omega)).mp hyf
      omega
  · rintro r ⟨hrn, hlo, hhi⟩
    by_contra hne
    rcases Nat.lt_or_ge r R with hlt' | hge
    · rw [if_neg (by omega : ¬ r = n - 1)] at hhi
      have := (hb r (by omega)).mpr hlt'
      linarith
    · have hgt : R < r := by omega
      rw [if_neg (by omega : ¬ r = 0)] at hlo
      have := (hb (r - 1) (by omega)).mp hlo
      omega

theorem existsUnique_congr_imp {α : Type} {p q : α → Prop}
    (h : ∀ a, p a ↔ q a) : (∃! a, p a) → (∃! a, q a) := by
  rintro ⟨a, ha, hu⟩
  exact ⟨a, (h a).mp ha, fun b hb => hu b ((h b).mpr hb)⟩

theorem existsUnique_pair {P Q : Nat → Prop} (hP : ∃! r, P r)
    (hQ : ∃! c, Q c) : ∃! rc : Nat × Nat, P rc.1 ∧ Q rc.2 := by
  obtain ⟨r, hr, hru⟩ := hP
  obtain ⟨c, hc, hcu⟩ := hQ
  refine ⟨(r, c), ⟨hr, hc⟩, ?_⟩
  rintro ⟨r', c'⟩ ⟨h1, h2⟩
  have e1 := hru r' h1
  have e2 := hcu c' h2
  simp [Prod.ext_iff, e1, e2]

/-- Every in-range point lies in exactly one horizontal row band of the
built edge table. -/
theorem row_band_unique (g : GridData) (style : CuttingStyle) (seed : Nat)
    (x y : ℚ)
    (hr : 1 ≤ g.rows) (hc : 1 ≤ g.cols) (hw : 1 ≤ g.width) (hh : 1 ≤ g.height)
    (hx0 : 0 ≤ x) (hx1 : x < (g.width : ℚ))
    (hy0 : 0 ≤ y) (hy1 : y < (g.height : ℚ)) :
    ∃! r : Nat, r < g.rows ∧ topOK g (EdgeTable.build style seed) r x y ∧
      botOK g (EdgeTable.build style seed) r x y := by
  have hcH := cellH_pos g hr hh
  have hampH := amp_le_quarter_cellH g
  unfold topOK botOK
  apply band_unique (fun i => hcut g (EdgeTable.build style seed) i x) g.rows
    (g.height : ℚ) y hr
  · intro i j hij hjn
    obtain ⟨hi1, hi2⟩ := hcut_bounds g style seed i x hr hc hw hh hx0 hx1
    obtain ⟨hj1, hj2⟩ := hcut_bounds g style seed j x hr hc hw hh hx0 hx1
    have hcast : (i : ℚ) + 1 ≤ (j : ℚ) := by exact_mod_cast hij
    nlinarith [hcH, hampH]
  · exact hy0
  · exact hy1

/-- Every in-range point lies in exactly one vertical column band of the
built edge table. -/
theorem col_band_unique (g : GridData) (style : CuttingStyle) (seed : Nat)
    (x y : ℚ)
    (hr : 1 ≤ g.rows) (hc : 1 ≤ g.cols) (hw : 1 ≤ g.width) (hh : 1 ≤ g.height)
    (hx0 : 0 ≤ x) (hx1 : x < (g.width : ℚ))
    (hy0 : 0 ≤ y) (hy1 : y < (g.height : ℚ)) :
    ∃! c : Nat, c < g.cols ∧ leftOK g (EdgeTable.build style seed) c x y ∧
      rightOK g (EdgeTable.build style seed) c x y := by
  have hcW := cellW_pos g hc hw
  have hampW := amp_le_quarter_cellW g
  unfold leftOK rightOK
  apply band_unique (fun j => vcut g (EdgeTable.build style seed) j y) g.cols
    (g.width : ℚ) x hc
  · intro i j hij hjn
    obtain ⟨hi1, hi2⟩ := vcut_bounds g style seed i y hr hc hw hh hy0 hy1
    obtain ⟨hj1, hj2⟩ := vcut_bounds g style seed j y hr hc hw hh hy0 hy1
    have hcast : (i : ℚ) + 1 ≤ (j : ℚ) := by exact_mod_cast hij
    nlinarith [hcW, hampW]
  · exact hx0
  · exact hx1

/-- Every in-range point is inside exactly one piece of the built table. -/
theorem insideP_unique (g : GridData) (style : CuttingStyle) (seed : Nat)
    (x y : ℚ)
    (hr : 1 ≤ g.rows) (hc : 1 ≤ g.cols) (hw : 1 ≤ g.width) (hh : 1 ≤ g.height)
    (hx0 : 0 ≤ x) (hx1 : x < (g.width : ℚ))
    (hy0 : 0 ≤ y) (hy1 : y < (g.height : ℚ)) :
    ∃! rc : Nat × Nat, rc.1 < g.rows ∧ rc.2 < g.cols ∧
      insideP g (EdgeTable.build style seed) rc.1 rc.2 x y := by
  have hrow := row_band_unique g style seed x y hr hc hw hh hx0 hx1 hy0 hy1
  have hcol := col_band_unique g style seed x y hr hc hw hh hx0 hx1 hy0 hy1
  have hpair := existsUnique_pair hrow hcol
  apply existsUnique_congr_imp _ hpair
  intro rc
  unfold insideP
  tauto

/-! ### Indexing the row-major piece list -/

theorem blocks_length {α : Type} (f : Nat → Nat → α) (cols : Nat) :
    ∀ rows, ((List.range rows).flatMap
      (fun r => (List.range cols).map (f r))).length = rows * cols := by
  intro rows
  induction rows with
  | zero => simp
  | succ n ih =>
    rw [List.range_succ, List.flatMap_append]
    simp only [List.length_append, ih, List.flatMap_cons, List.flatMap_nil,
      List.append_nil, List.length_map, List.length_range]
    ring

theorem blocks_getElem {α : Type} (f : Nat → Nat → α) (cols : Nat) :
    ∀ rows r c, r < rows → c < cols →
      ((List.range rows).flatMap
        (fun r => (List.range cols).map (f r)))[r * cols + c]? = some (f r c) := by
  intro rows
  induction rows with
  | zero => intro r c hr _; exact absurd hr (Nat.not_lt_zero r)
  | succ n ih =>
    intro r c hr hc
    rw [List.range_succ, List.flatMap_append]
    by_cases hrn : r < n
    · rw [List.getElem?_append_left]
      · exact ih r c hrn hc
      · rw [blocks_length f cols n]
        calc r * cols + c < r * cols + cols := by omega
          _ = (r + 1) * cols := by ring
          _ ≤ n * cols := Nat.mul_le_mul_right cols (by omega)
    · have hrn' : r = n := by omega
      subst hrn'
      rw [List.getElem?_append_right]
      · rw [blocks_length f cols r]
        have hidx : r * cols + c - r * cols = c := by omega
        rw [hidx]
        simp [List.getElem?_map, List.getElem?_range hc]
      · rw [blocks_length f cols r]
        omega

theorem range_prod_flatMap (cols : Nat) : ∀ rows,
    (List.range rows).flatMap
      (fun r => (List.range cols).map (fun c => r * cols + c)) =
    List.range (rows * cols) := by
  intro rows
  induction rows with
  | zero => simp
  | succ n ih =>
    rw [List.range_succ, List.flatMap_append, ih, Nat.succ_mul, List.range_add]
    simp

theorem cutCore_pieces_length (im : SourceImage) (rows cols : Nat)
    (style : CuttingStyle) (seed : Nat) (env : ConvEnv) :
    (cutCore im rows cols style seed env).pieces.length = rows * cols := by
  simp only [cutCore]
  exact blocks_length _ cols rows

theorem cutCore_pieces_getElem (im : SourceImage) (rows cols : Nat)
    (style : CuttingStyle) (seed : Nat) (env : ConvEnv) (r c : Nat)
    (hr : r < rows) (hc : c < cols) :
    (cutCore im rows cols style seed env).pieces[r * cols + c]? =
      some (mkPiece ⟨rows, cols, im.width, im.height⟩
        (EdgeTable.build style seed) style env r c) := by
  simp only [cutCore]
  exact blocks_getElem _ cols rows r c hr hc

theorem cutCore_ids (im : SourceImage) (rows cols : Nat)
    (style : CuttingStyle) (seed : Nat) (env : ConvEnv) :
    (cutCore im rows cols style seed env).pieces.map (fun p => p.id) =
      List.range (rows * cols) := by
  simp only [cutCore, List.map_flatMap, List.map_map]
  have hfun : (fun r => (List.range cols).map
      ((fun p : PieceOut => p.id) ∘ (fun c => mkPiece ⟨rows, cols, im.width, im.height⟩
        (EdgeTable.build style seed) style env r c))) =
      (fun r => (List.range cols).map (fun c => r * cols + c)) := by
    funext r
    apply List.map_congr_left
    intro c _
    rfl
  rw [hfun]
  exact range_prod_flatMap cols rows

theorem cutCore_warnings_mem (im : SourceImage) (rows cols : Nat)
    (style : CuttingStyle) (seed : Nat) (env : ConvEnv) (i : Nat) :
    i ∈ (cutCore im rows cols style seed env).warnings ↔
      ∃ p ∈ (cutCore im rows cols style seed env).pieces,
        p.degraded = true ∧ p.id = i := by
  simp only [cutCore, List.mem_map, List.mem_filter]
  constructor
  · rintro ⟨p, ⟨hp, hd⟩, hid⟩
    exact ⟨p, hp, hd, hid⟩
  · rintro ⟨p, hp, hd, hid⟩
    exact ⟨p, ⟨hp, hd⟩, hid⟩

theorem mem_pieces_getElem (im : SourceImage) (rows cols : Nat)
    (style : CuttingStyle) (seed : Nat) (env : ConvEnv) (p : PieceOut)
    (hp : p ∈ (cutCore im rows cols style seed env).pieces) :
    (cutCore im rows cols style seed env).pieces[p.id]? = some p := by
  obtain ⟨j, hj, hpe⟩ := List.getElem_of_mem hp
  have hids := cutCore_ids im rows cols style seed env
  have hlen := cutCore_pieces_length im rows cols style seed env
  have hjlt : j < rows * cols := hlen ▸ hj
  have hmap : ((cutCore im rows cols style seed env).pieces.map
      (fun p => p.id))[j]? = some p.id := by
    rw [List.getElem?_map, List.getElem?_eq_getElem hj, hpe]
    rfl
  rw [hids, List.getElem?_range hjlt] at hmap
  have hpj : p.id = j := by
    injection hmap with h
    exact h.symm
  rw [hpj]
  exact List.getElem?_eq_some.mpr ⟨hj, hpe⟩

theorem warnings_iff (im : SourceImage) (rows cols : Nat)
    (style : CuttingStyle) (seed : Nat) (env : ConvEnv) (r c : Nat)
    (hr : r < rows) (hc : c < cols) :
    ((r * cols + c) ∈ (cutCore im rows cols style seed env).warnings ↔
      (mkPiece ⟨rows, cols, im.width, im.height⟩ (EdgeTable.build style seed)
        style env r c).degraded = true) := by
  rw [cutCore_warnings_mem]
  constructor
  · rintro ⟨p, hp, hdeg, hid⟩
    have hg := mem_pieces_getElem im rows cols style seed env p hp
    rw [hid, cutCore_pieces_getElem im rows cols style seed env r c hr hc] at hg
    injection hg with h
    rw [h]
    exact hdeg
  · intro hdeg
    have hg := cutCore_pieces_getElem im rows cols style seed env r c hr hc
    exact ⟨_, List.getElem?_mem hg, hdeg, rfl⟩

/-! ### Claim theorems for the cutter core -/

/-- C3: for every valid grid, the cutter produces exactly `rows * cols`
pieces whose `id` values are exactly `0 .. rows*cols - 1` in row-major
order (hence no gaps and no duplicates), with the piece at index
`r * cols + c` carrying `id = r * cols + c` and grid coordinates
`(r, c)`. -/
theorem cut_piece_count (im : SourceImage) (rows cols : Nat)
    (style : CuttingStyle) (seed : Nat) (env : ConvEnv)
    (hr : 1 ≤ rows) (hc : 1 ≤ cols) :
    (cutCore im rows cols style seed env).pieces.length = rows * cols ∧
    (cutCore im rows cols style seed env).pieces.map (fun p => p.id) =
      List.range (rows * cols) ∧
    ∀ r c, r < rows → c < cols →
      ∃ p, (cutCore im rows cols style seed env).pieces[r * cols + c]? = some p ∧
        p.id = r * cols + c ∧ p.row = r ∧ p.col = c := by
  refine ⟨cutCore_pieces_length im rows cols style seed env,
    cutCore_ids im rows cols style seed env, ?_⟩
  intro r c hrr hcc
  exact ⟨_, cutCore_pieces_getElem im rows cols style seed env r c hrr hcc,
    rfl, rfl, rfl⟩

/-- Witness for C3 on a 2-by-2 grid over a 4-by-4 image. -/
theorem cut_piece_count_witness :
    1 ≤ 2 ∧
    (cutCore ⟨4, 4⟩ 2 2 .geometric 0 (fun _ => [true])).pieces.length = 2 * 2 ∧
    (cutCore ⟨4, 4⟩ 2 2 .geometric 0 (fun _ => [true])).pieces.map
      (fun p => p.id) = List.range (2 * 2) :=
  ⟨by decide,
    (cut_piece_count ⟨4, 4⟩ 2 2 .geometric 0 (fun _ => [true])
      (by decide) (by decide)).1,
    (cut_piece_count ⟨4, 4⟩ 2 2 .geometric 0 (fun _ => [true])
      (by decide) (by decide)).2.1⟩

/-- C7: the manifest carries the overall image size and the grid
dimensions, and contains for every piece `(r, c)` the record
`{ id, x, y }` with `id = r * cols + c` and `(x, y)` the piece's nominal
top-left placement `(c * cellWidth, r * cellHeight)` in source-image pixel
space. -/
theorem cut_manifest_fields (im : SourceImage) (rows cols : Nat)
    (style : CuttingStyle) (seed : Nat) (env : ConvEnv)
    (hr : 1 ≤ rows) (hc : 1 ≤ cols) :
    (cutCore im rows cols style seed env).manifest.width = im.width ∧
    (cutCore im rows cols style seed env).manifest.height = im.height ∧
    (cutCore im rows cols style seed env).manifest.gridRows = rows ∧
    (cutCore im rows cols style seed env).manifest.gridCols = cols ∧
    (cutCore im rows cols style seed env).manifest.pieces.length = rows * cols ∧
    ∀ r c, r < rows → c < cols →
      (⟨r * cols + c, (c : ℚ) * cellW ⟨rows, cols, im.width, im.height⟩,
        (r : ℚ) * cellH ⟨rows, cols, im.width, im.height⟩⟩ : ManifestEntry) ∈
        (cutCore im rows cols style seed env).manifest.pieces := by
  refine ⟨rfl, rfl, rfl, rfl, ?_, ?_⟩
  · show ((cutCore im rows cols style seed env).pieces.map
      (fun p => (⟨p.id, p.px, p.py⟩ : ManifestEntry))).length = rows * cols
    rw [List.length_map]
    exact cutCore_pieces_length im rows cols style seed env
  · intro r c hrr hcc
    have hg := cutCore_pieces_getElem im rows cols style seed env r c hrr hcc
    have hmem := List.getElem?_mem hg
    exact List.mem_map_of_mem (fun p => (⟨p.id, p.px, p.py⟩ : ManifestEntry)) hmem

/-- Witness for C7 on a 2-by-2 grid over a 4-by-4 image: the record of
piece `(1, 0)` sits at `(0, 2)` in pixel space. -/
theorem cut_manifest_fields_witness :
    1 ≤ 2 ∧
    (cutCore ⟨4, 4⟩ 2 2 .geometric 0 (fun _ => [true])).manifest.width = 4 ∧
    (cutCore ⟨4, 4⟩ 2 2 .geometric 0 (fun _ => [true])).manifest.gridRows = 2 ∧
    (⟨1 * 2 + 0, (0 : ℚ) * cellW ⟨2, 2, 4, 4⟩, (1 : ℚ) * cellH ⟨2, 2, 4, 4⟩⟩ :
      ManifestEntry) ∈
      (cutCore ⟨4, 4⟩ 2 2 .geometric 0 (fun _ => [true])).manifest.pieces := by
  have h := cut_manifest_fields ⟨4, 4⟩ 2 2 .geometric 0 (fun _ => [true])
    (by decide) (by decide)
  exact ⟨by decide, h.1, h.2.2.1, h.2.2.2.2.2 1 0 (by decide) (by decide)⟩

/-- C5: a cutting attempt fails — with a typed error and no output — exactly
when the source image cannot be read or the grid dimensions are invalid
(`rows < 1`, `cols < 1`, or a cell size resolving to zero or negative);
whether individual pieces' converter chains fail never changes whether the
attempt succeeds, and on valid input the attempt returns the full core
output for every converter environment. -/
theorem cut_fatal_iff (img : Option SourceImage) (rows cols : Nat)
    (style : CuttingStyle) (seed : Nat) (env : ConvEnv) :
    ((∃ e, cut img rows cols style seed env = .error e) ↔
      (img = none ∨ rows < 1 ∨ cols < 1 ∨
        ∃ im, img = some im ∧
          (cellW ⟨rows, cols, im.width, im.height⟩ ≤ 0 ∨
           cellH ⟨rows, cols, im.width, im.height⟩ ≤ 0))) ∧
    (∀ env' : ConvEnv, (cut img rows cols style seed env).isOk =
      (cut img rows cols style seed env').isOk) ∧
    (∀ im, img = some im → ¬(rows < 1 ∨ cols < 1) →
      ¬(cellW ⟨rows, cols, im.width, im.height⟩ ≤ 0 ∨
        cellH ⟨rows, cols, im.width, im.height⟩ ≤ 0) →
      cut img rows cols style seed env =
        .ok (cutCore im rows cols style seed env)) := by
  rcases img with _ | im
  · refine ⟨?_, ?_, ?_⟩
    · constructor
      · intro _
        exact Or.inl rfl
      · intro _
        exact ⟨.unreadableImage, rfl⟩
    · intro env'
      rfl
    · intro im him
      exact absurd him (by simp)
  · simp only [cut]
    by_cases h1 : rows < 1 ∨ cols < 1
    · rw [if_pos h1]
      refine ⟨?_, ?_, ?_⟩
      · constructor
        · intro _
          rcases h1 with h | h
          · exact Or.inr (Or.inl h)
          · exact Or.inr (Or.inr (Or.inl h))
        · intro _
          exact ⟨.invalidGrid, rfl⟩
      · intro env'
        rw [if_pos h1]
      · intro im' him' h1'
        exact absurd h1 h1'
    · rw [if_neg h1]
      by_cases h2 : cellW ⟨rows, cols, im.width, im.height⟩ ≤ 0 ∨
          cellH ⟨rows, cols, im.width, im.height⟩ ≤ 0
      · rw [if_pos h2]
        refine ⟨?_, ?_, ?_⟩
        · constructor
          · intro _
            exact Or.inr (Or.inr (Or.inr ⟨im, rfl, h2⟩))
          · intro _
            exact ⟨.invalidGrid, rfl⟩
        · intro env'
          rw [if_neg h1, if_pos h2]
        · intro im' him' _ h2'
          have him'' : im' = im := by
            injection him' with h
            exact h.symm
          rw [him''] at h2'
          exact absurd h2 h2'
      · rw [if_neg h2]
        refine ⟨?_, ?_, ?_⟩
        · constructor
          · rintro ⟨e, he⟩
            exact absurd he (by simp)
          · rintro (h | h | h | ⟨im', him', h2'⟩)
            · exact absurd h (by simp)
            · exact absurd h (by omega)
            · exact absurd h (by omega)
            · have him'' : im' = im := by
                injection him' with h
                exact h.symm
              rw [him''] at h2'
              exact absurd h2' h2
        · intro env'
          rw [if_neg h1, if_neg h2]
          rfl
        · intro im' him' _ _
          have him'' : im' = im := by
            injection him' with h
            exact h.symm
          rw [him'']

/-- Witness for C5: grid `(0, 5)` is a fatal input error (scenario (d)),
while a valid request succeeds for any converter environment. -/
theorem cut_fatal_iff_witness :
    (∃ e, cut (some ⟨4, 4⟩) 0 5 .classic 0 (fun _ => [true]) = .error e) ∧
    cut (some ⟨4, 4⟩) 2 2 .classic 0 (fun _ => [true]) =
      .ok (cutCore ⟨4, 4⟩ 2 2 .classic 0 (fun _ => [true])) := by
  constructor
  · exact (cut_fatal_iff (some ⟨4, 4⟩) 0 5 .classic 0 (fun _ => [true])).1.mpr
      (Or.inr (Or.inl (by decide)))
  · refine (cut_fatal_iff (some ⟨4, 4⟩) 2 2 .classic 0 (fun _ => [true])).2.2
      ⟨4, 4⟩ rfl (by decide) ?_
    push_neg
    constructor <;> norm_num [cellW, cellH]

/-- C6: in the Classic style, a piece whose entire converter chain fails is
degraded to the plain cell rectangle and flagged in the warnings, while any
piece whose chain succeeds keeps its full curved boundary from the shared
edge table — unchanged by other pieces' failures — and is not flagged. -/
theorem fallback_degradation_containment (im : SourceImage) (rows cols : Nat)
    (seed : Nat) (env : ConvEnv) (r c : Nat) (hrr : r < rows) (hcc : c < cols) :
    (chainSucceeds env (r * cols + c) = false →
      ∃ p, (cutCore im rows cols .classic seed env).pieces[r * cols + c]? = some p ∧
        p.boundary = .rect ((c : ℚ) * cellW ⟨rows, cols, im.width, im.height⟩)
          ((r : ℚ) * cellH ⟨rows, cols, im.width, im.height⟩)
          (cellW ⟨rows, cols, im.width, im.height⟩)
          (cellH ⟨rows, cols, im.width, im.height⟩) ∧
        p.degraded = true ∧
        (r * cols + c) ∈ (cutCore im rows cols .classic seed env).warnings) ∧
    (chainSucceeds env (r * cols + c) = true →
      ∃ p, (cutCore im rows cols .classic seed env).pieces[r * cols + c]? = some p ∧
        p.boundary = .curved (PiecePathBuilder.build ⟨rows, cols, im.width, im.height⟩
          (EdgeTable.build .classic seed) r c) ∧
        p.degraded = false ∧
        (r * cols + c) ∉ (cutCore im rows cols .classic seed env).warnings) := by
  have hg := cutCore_pieces_getElem im rows cols .classic seed env r c hrr hcc
  have hw := warnings_iff im rows cols .classic seed env r c hrr hcc
  constructor
  · intro hfail
    refine ⟨_, hg, ?_, ?_, ?_⟩
    · simp [mkPiece, hfail]
    · simp [mkPiece, hfail]
    · rw [hw]
      simp [mkPiece, hfail]
  · intro hok
    refine ⟨_, hg, ?_, ?_, ?_⟩
    · simp [mkPiece, hok]
    · simp [mkPiece, hok]
    · rw [hw]
      simp [mkPiece, hok]

/-- Witness for C6: on a 1-by-2 Classic grid where every converter fails for
piece 0 only, piece 0 is degraded to its cell rectangle and flagged. -/
theorem fallback_degradation_containment_witness :
    (0 : Nat) < 1 ∧ (0 : Nat) < 2 ∧
    chainSucceeds (fun i => if i = 0 then [false, false] else [true])
      (0 * 2 + 0) = false ∧
    ∃ p, (cutCore ⟨4, 4⟩ 1 2 .classic 0
        (fun i => if i = 0 then [false, false] else [true])).pieces[0 * 2 + 0]? =
        some p ∧
      p.boundary = .rect ((0 : ℚ) * cellW ⟨1, 2, 4, 4⟩)
        ((0 : ℚ) * cellH ⟨1, 2, 4, 4⟩) (cellW ⟨1, 2, 4, 4⟩) (cellH ⟨1, 2, 4, 4⟩) ∧
      p.degraded = true ∧
      (0 * 2 + 0) ∈ (cutCore ⟨4, 4⟩ 1 2 .classic 0
        (fun i => if i = 0 then [false, false] else [true])).warnings := by
  refine ⟨by decide, by decide, by decide, ?_⟩
  exact (fallback_degradation_containment ⟨4, 4⟩ 1 2 0
    (fun i => if i = 0 then [false, false] else [true]) 0 0
    (by decide) (by decide)).1 (by decide)

/-- C4: the cutter's piece geometry is deterministic: with identical
arguments and identical converter environments the whole output is
identical; the edge-shape generator returns identical curves for identical
inputs; a piece unflagged in two runs has the same boundary in both — the
curved path determined by `(grid, style, seed)` alone — and any piece whose
boundary differs between two runs is flagged as degraded in at least one of
them. -/
theorem cut_determinism (im : SourceImage) (rows cols : Nat)
    (style : CuttingStyle) (seed : Nat) (env₁ env₂ : ConvEnv) (r c : Nat)
    (hrr : r < rows) (hcc : c < cols) :
    (env₁ = env₂ →
      cutCore im rows cols style seed env₁ = cutCore im rows cols style seed env₂) ∧
    (∀ (o : Orientation) (r' c' : Nat) (st : CuttingStyle) (sd : Nat)
       (o' : Orientation) (r'' c'' : Nat) (st' : CuttingStyle) (sd' : Nat),
      o = o' → r' = r'' → c' = c'' → st = st' → sd = sd' →
      EdgeShapeGenerator o r' c' st sd = EdgeShapeGenerator o' r'' c'' st' sd') ∧
    (∀ p₁ p₂,
      (cutCore im rows cols style seed env₁).pieces[r * cols + c]? = some p₁ →
      (cutCore im rows cols style seed env₂).pieces[r * cols + c]? = some p₂ →
      ((r * cols + c) ∉ (cutCore im rows cols style seed env₁).warnings →
       (r * cols + c) ∉ (cutCore im rows cols style seed env₂).warnings →
        p₁.boundary = p₂.boundary ∧
        p₁.boundary = .curved (PiecePathBuilder.build ⟨rows, cols, im.width, im.height⟩
          (EdgeTable.build style seed) r c)) ∧
      (p₁.boundary ≠ p₂.boundary →
        (r * cols + c) ∈ (cutCore im rows cols style seed env₁).warnings ∨
        (r * cols + c) ∈ (cutCore im rows cols style seed env₂).warnings)) := by
  refine ⟨?_, ?_, ?_⟩
  · rintro rfl
    rfl
  · rintro o r' c' st sd o' r'' c'' st' sd' rfl rfl rfl rfl rfl
    rfl
  · intro p₁ p₂ hg₁ hg₂
    rw [cutCore_pieces_getElem im rows cols style seed env₁ r c hrr hcc] at hg₁
    rw [cutCore_pieces_getElem im rows cols style seed env₂ r c hrr hcc] at hg₂
    injection hg₁ with h₁
    injection hg₂ with h₂
    have hw₁ := warnings_iff im rows cols style seed env₁ r c hrr hcc
    have hw₂ := warnings_iff im rows cols style seed env₂ r c hrr hcc
    have hcore : (r * cols + c) ∉ (cutCore im rows cols style seed env₁).warnings →
        (r * cols + c) ∉ (cutCore im rows cols style seed env₂).warnings →
        p₁.boundary = p₂.boundary ∧
        p₁.boundary = .curved (PiecePathBuilder.build ⟨rows, cols, im.width, im.height⟩
          (EdgeTable.build style seed) r c) := by
      intro hn₁ hn₂
      rw [hw₁] at hn₁
      rw [hw₂] at hn₂
      rw [Bool.not_eq_true] at hn₁ hn₂
      have hb₁ : p₁.boundary = .curved (PiecePathBuilder.build
          ⟨rows, cols, im.width, im.height⟩ (EdgeTable.build style seed) r c) := by
        rw [← h₁]
        simp only [mkPiece] at hn₁ ⊢
        rw [hn₁, Bool.cond_false]
      have hb₂ : p₂.boundary = .curved (PiecePathBuilder.build
          ⟨rows, cols, im.width, im.height⟩ (EdgeTable.build style seed) r c) := by
        rw [← h₂]
        simp only [mkPiece] at hn₂ ⊢
        rw [hn₂, Bool.cond_false]
      exact ⟨hb₁.trans hb₂.symm, hb₁⟩
    refine ⟨hcore, ?_⟩
    intro hne
    by_contra hcon
    push_neg at hcon
    exact hne (hcore hcon.1 hcon.2).1

/-- Witness for C4: two Classic runs whose converter environments differ in
piece 0 only; piece 1 is unflagged in both runs and keeps the identical
curved boundary. -/
theorem cut_determinism_witness :
    (0 : Nat) < 1 ∧ (1 : Nat) < 2 ∧
    (0 * 2 + 1) ∉ (cutCore ⟨4, 4⟩ 1 2 .classic 0 (fun _ => [true])).warnings ∧
    (0 * 2 + 1) ∉ (cutCore ⟨4, 4⟩ 1 2 .classic 0
      (fun i => if i = 0 then [] else [true])).warnings ∧
    (mkPiece ⟨1, 2, 4, 4⟩ (EdgeTable.build .classic 0) .classic
      (fun _ => [true]) 0 1).boundary =
    (mkPiece ⟨1, 2, 4, 4⟩ (EdgeTable.build .classic 0) .classic
      (fun i => if i = 0 then [] else [true]) 0 1).boundary := by
  have hw1 : (0 * 2 + 1) ∉
      (cutCore ⟨4, 4⟩ 1 2 .classic 0 (fun _ => [true])).warnings := by decide
  have hw2 : (0 * 2 + 1) ∉ (cutCore ⟨4, 4⟩ 1 2 .classic 0
      (fun i => if i = 0 then [] else [true])).warnings := by decide
  have h := (cut_determinism ⟨4, 4⟩ 1 2 .classic 0 (fun _ => [true])
      (fun i => if i = 0 then [] else [true]) 0 1 (by decide) (by decide)).2.2
    (mkPiece ⟨1, 2, 4, 4⟩ (EdgeTable.build .classic 0) .classic
      (fun _ => [true]) 0 1)
    (mkPiece ⟨1, 2, 4, 4⟩ (EdgeTable.build .classic 0) .classic
      (fun i => if i = 0 then [] else [true]) 0 1)
    (cutCore_pieces_getElem ⟨4, 4⟩ 1 2 .classic 0 _ 0 1 (by decide) (by decide))
    (cutCore_pieces_getElem ⟨4, 4⟩ 1 2 .classic 0 _ 0 1 (by decide) (by decide))
  exact ⟨by decide, by decide, hw1, hw2, (h.1 hw1 hw2).1⟩

/-- C1: for every internal edge, the two adjacent pieces' built boundary
paths carry the very same resolved edge (identical curve — exactly, since
the model is exact rational arithmetic), and membership is complementary:
no point is inside both pieces, and of two points agreeing on every other
side constraint, the shared cut curve alone decides which of the two pieces
contains it, with inverted inside/outside membership. -/
theorem edge_complementarity (g : GridData) (style : CuttingStyle)
    (seed : Nat) (r c : Nat) :
    (r + 1 < g.rows → c < g.cols →
      (PiecePathBuilder.build g (EdgeTable.build style seed) r c).bottom =
        (PiecePathBuilder.build g (EdgeTable.build style seed) (r + 1) c).top ∧
      (∀ x y : ℚ, ¬(insideP g (EdgeTable.build style seed) r c x y ∧
        insideP g (EdgeTable.build style seed) (r + 1) c x y)) ∧
      (∀ x y : ℚ,
        leftOK g (EdgeTable.build style seed) c x y →
        rightOK g (EdgeTable.build style seed) c x y →
        topOK g (EdgeTable.build style seed) r x y →
        botOK g (EdgeTable.build style seed) (r + 1) x y →
        ((insideP g (EdgeTable.build style seed) r c x y ↔
            y < hcut g (EdgeTable.build style seed) r x) ∧
         (insideP g (EdgeTable.build style seed) (r + 1) c x y ↔
            hcut g (EdgeTable.build style seed) r x ≤ y)))) ∧
    (r < g.rows → c + 1 < g.cols →
      (PiecePathBuilder.build g (EdgeTable.build style seed) r c).right =
        (PiecePathBuilder.build g (EdgeTable.build style seed) r (c + 1)).left ∧
      (∀ x y : ℚ, ¬(insideP g (EdgeTable.build style seed) r c x y ∧
        insideP g (EdgeTable.build style seed) r (c + 1) x y)) ∧
      (∀ x y : ℚ,
        topOK g (EdgeTable.build style seed) r x y →
        botOK g (EdgeTable.build style seed) r x y →
        leftOK g (EdgeTable.build style seed) c x y →
        rightOK g (EdgeTable.build style seed) (c + 1) x y →
        ((insideP g (EdgeTable.build style seed) r c x y ↔
            x < vcut g (EdgeTable.build style seed) c y) ∧
         (insideP g (EdgeTable.build style seed) r (c + 1) x y ↔
            vcut g (EdgeTable.build style seed) c y ≤ x)))) := by
  constructor
  · intro hr1 hc1
    have hrne : ¬ r = g.rows - 1 := by omega
    have hr1ne : ¬ r + 1 = 0 := by omega
    have hbot : ∀ x y : ℚ, botOK g (EdgeTable.build style seed) r x y ↔
        y < hcut g (EdgeTable.build style seed) r x := by
      intro x y
      unfold botOK
      rw [if_neg hrne]
    have htop : ∀ x y : ℚ, topOK g (EdgeTable.build style seed) (r + 1) x y ↔
        hcut g (EdgeTable.build style seed) r x ≤ y := by
      intro x y
      unfold topOK
      rw [if_neg hr1ne]
      simp only [Nat.add_sub_cancel]
    refine ⟨?_, ?_, ?_⟩
    · unfold PiecePathBuilder.build
      simp only [if_neg hrne, if_neg hr1ne, Nat.add_sub_cancel]
    · rintro x y ⟨h₁, h₂⟩
      have hb := (hbot x y).mp h₁.2.1
      have ht := (htop x y).mp h₂.1
      linarith
    · intro x y hl hrOK ht hb
      unfold insideP
      constructor
      · constructor
        · rintro ⟨_, hbo, _, _⟩
          exact (hbot x y).mp hbo
        · intro hy
          exact ⟨ht, (hbot x y).mpr hy, hl, hrOK⟩
      · constructor
        · rintro ⟨hto, _, _, _⟩
          exact (htop x y).mp hto
        · intro hy
          exact ⟨(htop x y).mpr hy, hb, hl, hrOK⟩
  · intro hr1 hc1
    have hcne : ¬ c = g.cols - 1 := by omega
    have hc1ne : ¬ c + 1 = 0 := by omega
    have hright : ∀ x y : ℚ, rightOK g (EdgeTable.build style seed) c x y ↔
        x < vcut g (EdgeTable.build style seed) c y := by
      intro x y
      unfold rightOK
      rw [if_neg hcne]
    have hleft : ∀ x y : ℚ, leftOK g (EdgeTable.build style seed) (c + 1) x y ↔
        vcut g (EdgeTable.build style seed) c y ≤ x := by
      intro x y
      unfold leftOK
      rw [if_neg hc1ne]
      simp only [Nat.add_sub_cancel]
    refine ⟨?_, ?_, ?_⟩
    · unfold PiecePathBuilder.build
      simp only [if_neg hcne, if_neg hc1ne, Nat.add_sub_cancel]
    · rintro x y ⟨h₁, h₂⟩
      have hri := (hright x y).mp h₁.2.2.2
      have hle := (hleft x y).mp h₂.2.2.1
      linarith
    · intro x y ht hb hl hrOK
      unfold insideP
      constructor
      · constructor
        · rintro ⟨_, _, _, hro⟩
          exact (hright x y).mp hro
        · intro hx
          exact ⟨ht, hb, hl, (hright x y).mpr hx⟩
      · constructor
        · rintro ⟨_, _, hlo, _⟩
          exact (hleft x y).mp hlo
        · intro hx
          exact ⟨ht, hb, (hleft x y).mpr hx, hrOK⟩

/-- Witness for C1 on a 2-by-2 grid: the shared side specifications coincide
for the horizontal edge under piece `(0, 0)` and the vertical edge to its
right, and the point `(1, 1)` cannot be inside both vertical neighbors. -/
theorem edge_complementarity_witness :
    0 + 1 < (⟨2, 2, 4, 4⟩ : GridData).rows ∧ 0 < (⟨2, 2, 4, 4⟩ : GridData).cols ∧
    (PiecePathBuilder.build ⟨2, 2, 4, 4⟩ (EdgeTable.build .geometric 0) 0 0).bottom =
      (PiecePathBuilder.build ⟨2, 2, 4, 4⟩ (EdgeTable.build .geometric 0) 1 0).top ∧
    ¬(insideP ⟨2, 2, 4, 4⟩ (EdgeTable.build .geometric 0) 0 0 1 1 ∧
      insideP ⟨2, 2, 4, 4⟩ (EdgeTable.build .geometric 0) 1 0 1 1) ∧
    (PiecePathBuilder.build ⟨2, 2, 4, 4⟩ (EdgeTable.build .geometric 0) 0 0).right =
      (PiecePathBuilder.build ⟨2, 2, 4, 4⟩ (EdgeTable.build .geometric 0) 0 1).left := by
  have h := edge_complementarity ⟨2, 2, 4, 4⟩ .geometric 0 0 0
  exact ⟨by decide, by decide, (h.1 (by decide) (by decide)).1,
    (h.1 (by decide) (by decide)).2.1 1 1, (h.2 (by decide) (by decide)).1⟩

/-- Every in-range ordinate lies in exactly one plain row cell. -/
theorem rect_row_unique (g : GridData) (hr : 1 ≤ g.rows) (hh : 1 ≤ g.height)
    (y : ℚ) (hy0 : 0 ≤ y) (hy1 : y < (g.height : ℚ)) :
    ∃! r : Nat, r < g.rows ∧ (r : ℚ) * cellH g ≤ y ∧
      y < (r : ℚ) * cellH g + cellH g := by
  have hmono : ∀ i j : Nat, i < j → j + 1 < g.rows →
      ((i : ℚ) + 1) * cellH g < ((j : ℚ) + 1) * cellH g := by
    intro i j hij _
    have hcH : 0 < cellH g := cellH_pos g hr hh
    have hij' : (i : ℚ) + 1 < (j : ℚ) + 1 := by
      exact_mod_cast Nat.succ_lt_succ hij
    nlinarith
  have hband := band_unique (fun i => ((i : ℚ) + 1) * cellH g) g.rows
    (g.height : ℚ) y hr hmono hy0 hy1
  apply existsUnique_congr_imp _ hband
  intro r
  constructor
  · rintro ⟨hrn, hlo, hhi⟩
    refine ⟨hrn, ?_, ?_⟩
    · by_cases h0 : r = 0
      · rw [if_pos h0] at hlo
        subst h0
        simpa using hlo
      · rw [if_neg h0] at hlo
        have hlo' : (((r - 1 : Nat) : ℚ) + 1) * cellH g ≤ y := hlo
        have e : ((r - 1 : Nat) : ℚ) + 1 = (r : ℚ) := by
          rw [Nat.cast_sub (by omega : 1 ≤ r)]
          ring
        rw [e] at hlo'
        exact hlo'
    · by_cases hn : r = g.rows - 1
      · rw [if_pos hn] at hhi
        have e : (r : ℚ) * cellH g + cellH g = (g.rows : ℚ) * cellH g := by
          rw [hn, Nat.cast_sub hr]
          push_cast
          ring
        rw [e, rows_mul_cellH g hr]
        exact hhi
      · rw [if_neg hn] at hhi
        have hhi' : y < ((r : ℚ) + 1) * cellH g := hhi
        have e : ((r : ℚ) + 1) * cellH g = (r : ℚ) * cellH g + cellH g := by ring
        rw [e] at hhi'
        exact hhi'
  · rintro ⟨hrn, hlo, hhi⟩
    refine ⟨hrn, ?_, ?_⟩
    · by_cases h0 : r = 0
      · rw [if_pos h0]
        exact hy0
      · rw [if_neg h0]
        show (((r - 1 : Nat) : ℚ) + 1) * cellH g ≤ y
        have e : ((r - 1 : Nat) : ℚ) + 1 = (r : ℚ) := by
          rw [Nat.cast_sub (by omega : 1 ≤ r)]
          ring
        rw [e]
        exact hlo
    · by_cases hn : r = g.rows - 1
      · rw [if_pos hn]
        exact hy1
      · rw [if_neg hn]
        show y < ((r : ℚ) + 1) * cellH g
        have e : ((r : ℚ) + 1) * cellH g = (r : ℚ) * cellH g + cellH g := by ring
        rw [e]
        exact hhi

/-- Every in-range abscissa lies in exactly one plain column cell. -/
theorem rect_col_unique (g : GridData) (hc : 1 ≤ g.cols) (hw : 1 ≤ g.width)
    (x : ℚ) (hx0 : 0 ≤ x) (hx1 : x < (g.width : ℚ)) :
    ∃! c : Nat, c < g.cols ∧ (c : ℚ) * cellW g ≤ x ∧
      x < (c : ℚ) * cellW g + cellW g := by
  have hmono : ∀ i j : Nat, i < j → j + 1 < g.cols →
      ((i : ℚ) + 1) * cellW g < ((j : ℚ) + 1) * cellW g := by
    intro i j hij _
    have hcW : 0 < cellW g := cellW_pos g hc hw
    have hij' : (i : ℚ) + 1 < (j : ℚ) + 1 := by
      exact_mod_cast Nat.succ_lt_succ hij
    nlinarith
  have hband := band_unique (fun i => ((i : ℚ) + 1) * cellW g) g.cols
    (g.width : ℚ) x hc hmono hx0 hx1
  apply existsUnique_congr_imp _ hband
  intro c
  constructor
  · rintro ⟨hcn, hlo, hhi⟩
    refine ⟨hcn, ?_, ?_⟩
    · by_cases h0 : c = 0
      · rw [if_pos h0] at hlo
        subst h0
        simpa using hlo
      · rw [if_neg h0] at hlo
        have hlo' : (((c - 1 : Nat) : ℚ) + 1) * cellW g ≤ x := hlo
        have e : ((c - 1 : Nat) : ℚ) + 1 = (c : ℚ) := by
          rw [Nat.cast_sub (by omega : 1 ≤ c)]
          ring
        rw [e] at hlo'
        exact hlo'
    · by_cases hn : c = g.cols - 1
      · rw [if_pos hn] at hhi
        have e : (c : ℚ) * cellW g + cellW g = (g.cols : ℚ) * cellW g := by
          rw [hn, Nat.cast_sub hc]
          push_cast
          ring
        rw [e, cols_mul_cellW g hc]
        exact hhi
      · rw [if_neg hn] at hhi
        have hhi' : x < ((c : ℚ) + 1) * cellW g := hhi
        have e : ((c : ℚ) + 1) * cellW g = (c : ℚ) * cellW g + cellW g := by ring
        rw [e] at hhi'
        exact hhi'
  · rintro ⟨hcn, hlo, hhi⟩
    refine ⟨hcn, ?_, ?_⟩
    · by_cases h0 : c = 0
      · rw [if_pos h0]
        exact hx0
      · rw [if_neg h0]
        show (((c - 1 : Nat) : ℚ) + 1) * cellW g ≤ x
        have e : ((c - 1 : Nat) : ℚ) + 1 = (c : ℚ) := by
          rw [Nat.cast_sub (by omega : 1 ≤ c)]
          ring
        rw [e]
        exact hlo
    · by_cases hn : c = g.cols - 1
      · rw [if_pos hn]
        exact hx1
      · rw [if_neg hn]
        show x < ((c : ℚ) + 1) * cellW g
        have e : ((c : ℚ) + 1) * cellW g = (c : ℚ) * cellW g + cellW g := by ring
        rw [e]
        exact hhi

/-- A non-degraded piece's filled region is exactly the shared-cut
containment region of its cell. -/
theorem filledAt_iff_insideP (im : SourceImage) (rows cols : Nat)
    (style : CuttingStyle) (seed : Nat) (env : ConvEnv) (r c px py : Nat)
    (hrr : r < rows) (hcc : c < cols)
    (hdeg : (mkPiece ⟨rows, cols, im.width, im.height⟩
      (EdgeTable.build style seed) style env r c).degraded = false) :
    (pieceFilledAt (cutCore im rows cols style seed env) r c px py ↔
      insideP ⟨rows, cols, im.width, im.height⟩ (EdgeTable.build style seed)
        r c ((px : ℚ) + 1/2) ((py : ℚ) + 1/2)) := by
  unfold pieceFilledAt
  constructor
  · rintro ⟨p, hp, hf⟩
    rw [show (cutCore im rows cols style seed env).grid.cols = cols from rfl,
      cutCore_pieces_getElem im rows cols style seed env r c hrr hcc] at hp
    injection hp with hmk
    have hb : p.boundary = .curved (PiecePathBuilder.build
        ⟨rows, cols, im.width, im.height⟩ (EdgeTable.build style seed) r c) := by
      rw [← hmk]
      simp only [mkPiece] at hdeg ⊢
      rw [hdeg, Bool.cond_false]
    unfold pieceFilled at hf
    rw [hb] at hf
    simp only [boundaryFilled] at hf
    rw [← hmk] at hf
    simp only [mkPiece] at hf
    exact hf
  · intro hin
    refine ⟨mkPiece ⟨rows, cols, im.width, im.height⟩ (EdgeTable.build style seed)
      style env r c, ?_, ?_⟩
    · exact cutCore_pieces_getElem im rows cols style seed env r c hrr hcc
    · unfold pieceFilled
      have hb : (mkPiece ⟨rows, cols, im.width, im.height⟩
          (EdgeTable.build style seed) style env r c).boundary =
          .curved (PiecePathBuilder.build ⟨rows, cols, im.width, im.height⟩
            (EdgeTable.build style seed) r c) := by
        simp only [mkPiece] at hdeg ⊢
        rw [hdeg, Bool.cond_false]
      rw [hb]
      simp only [boundaryFilled]
      exact hin

/-- A degraded piece's filled region is exactly its plain cell rectangle. -/
theorem filledAt_iff_rect (im : SourceImage) (rows cols : Nat)
    (style : CuttingStyle) (seed : Nat) (env : ConvEnv) (r c px py : Nat)
    (hrr : r < rows) (hcc : c < cols)
    (hdeg : (mkPiece ⟨rows, cols, im.width, im.height⟩
      (EdgeTable.build style seed) style env r c).degraded = true) :
    (pieceFilledAt (cutCore im rows cols style seed env) r c px py ↔
      ((c : ℚ) * cellW ⟨rows, cols, im.width, im.height⟩ ≤ (px : ℚ) + 1/2 ∧
       (px : ℚ) + 1/2 < (c : ℚ) * cellW ⟨rows, cols, im.width, im.height⟩ +
         cellW ⟨rows, cols, im.width, im.height⟩ ∧
       (r : ℚ) * cellH ⟨rows, cols, im.width, im.height⟩ ≤ (py : ℚ) + 1/2 ∧
       (py : ℚ) + 1/2 < (r : ℚ) * cellH ⟨rows, cols, im.width, im.height⟩ +
         cellH ⟨rows, cols, im.width, im.height⟩)) := by
  unfold pieceFilledAt
  constructor
  · rintro ⟨p, hp, hf⟩
    rw [show (cutCore im rows cols style seed env).grid.cols = cols from rfl,
      cutCore_pieces_getElem im rows cols style seed env r c hrr hcc] at hp
    injection hp with hmk
    have hb : p.boundary = .rect
        ((c : ℚ) * cellW ⟨rows, cols, im.width, im.height⟩)
        ((r : ℚ) * cellH ⟨rows, cols, im.width, im.height⟩)
        (cellW ⟨rows, cols, im.width, im.height⟩)
        (cellH ⟨rows, cols, im.width, im.height⟩) := by
      rw [← hmk]
      simp only [mkPiece] at hdeg ⊢
      rw [hdeg, Bool.cond_true]
    unfold pieceFilled at hf
    rw [hb] at hf
    simp only [boundaryFilled] at hf
    exact hf
  · intro hin
    refine ⟨mkPiece ⟨rows, cols, im.width, im.height⟩ (EdgeTable.build style seed)
      style env r c, ?_, ?_⟩
    · exact cutCore_pieces_getElem im rows cols style seed env r c hrr hcc
    · unfold pieceFilled
      have hb : (mkPiece ⟨rows, cols, im.width, im.height⟩
          (EdgeTable.build style seed) style env r c).boundary = .rect
          ((c : ℚ) * cellW ⟨rows, cols, im.width, im.height⟩)
          ((r : ℚ) * cellH ⟨rows, cols, im.width, im.height⟩)
          (cellW ⟨rows, cols, im.width, im.height⟩)
          (cellH ⟨rows, cols, im.width, im.height⟩) := by
        simp only [mkPiece] at hdeg ⊢
        rw [hdeg, Bool.cond_true]
      rw [hb]
      simp only [boundaryFilled]
      exact hin

/-- C2: for every valid grid, every source pixel (sampled at its center,
which ignores the anti-aliased boundary band) lies in the filled region of
exactly one piece of the cut output — both when no piece was degraded (all
boundaries curved) and when every converter chain failed (scenario (c):
every Classic piece a plain rectangle). -/
theorem tiling_exactly_once (im : SourceImage) (rows cols : Nat)
    (style : CuttingStyle) (seed : Nat) (env : ConvEnv)
    (hr : 1 ≤ rows) (hc : 1 ≤ cols) (hw : 1 ≤ im.width) (hh : 1 ≤ im.height)
    (px py : Nat) (hpx : px < im.width) (hpy : py < im.height) :
    ((cutCore im rows cols style seed env).warnings = [] →
      ∃! rc : Nat × Nat, rc.1 < rows ∧ rc.2 < cols ∧
        pieceFilledAt (cutCore im rows cols style seed env) rc.1 rc.2 px py) ∧
    ((∀ i, chainSucceeds env i = false) →
      ∃! rc : Nat × Nat, rc.1 < rows ∧ rc.2 < cols ∧
        pieceFilledAt (cutCore im rows cols style seed env) rc.1 rc.2 px py) := by
  have hx0 : (0 : ℚ) ≤ (px : ℚ) + 1/2 := by positivity
  have hy0 : (0 : ℚ) ≤ (py : ℚ) + 1/2 := by positivity
  have hx1 : (px : ℚ) + 1/2 <
      ((⟨rows, cols, im.width, im.height⟩ : GridData).width : ℚ) := by
    show (px : ℚ) + 1/2 < (im.width : ℚ)
    have h : (px : ℚ) + 1 ≤ (im.width : ℚ) := by exact_mod_cast hpx
    linarith
  have hy1 : (py : ℚ) + 1/2 <
      ((⟨rows, cols, im.width, im.height⟩ : GridData).height : ℚ) := by
    show (py : ℚ) + 1/2 < (im.height : ℚ)
    have h : (py : ℚ) + 1 ≤ (im.height : ℚ) := by exact_mod_cast hpy
    linarith
  have curvedCore : (∀ r c, r < rows → c < cols →
      (mkPiece ⟨rows, cols, im.width, im.height⟩ (EdgeTable.build style seed)
        style env r c).degraded = false) →
      ∃! rc : Nat × Nat, rc.1 < rows ∧ rc.2 < cols ∧
        pieceFilledAt (cutCore im rows cols style seed env) rc.1 rc.2 px py := by
    intro hdegs
    have hu := insideP_unique ⟨rows, cols, im.width, im.height⟩ style seed
      ((px : ℚ) + 1/2) ((py : ℚ) + 1/2) hr hc hw hh hx0 hx1 hy0 hy1
    apply existsUnique_congr_imp _ hu
    intro rc
    constructor
    · rintro ⟨h1, h2, h3⟩
      exact ⟨h1, h2, (filledAt_iff_insideP im rows cols style seed env rc.1 rc.2
        px py h1 h2 (hdegs rc.1 rc.2 h1 h2)).mpr h3⟩
    · rintro ⟨h1, h2, h3⟩
      exact ⟨h1, h2, (filledAt_iff_insideP im rows cols style seed env rc.1 rc.2
        px py h1 h2 (hdegs rc.1 rc.2 h1 h2)).mp h3⟩
  have rectCore : (∀ r c, r < rows → c < cols →
      (mkPiece ⟨rows, cols, im.width, im.height⟩ (EdgeTable.build style seed)
        style env r c).degraded = true) →
      ∃! rc : Nat × Nat, rc.1 < rows ∧ rc.2 < cols ∧
        pieceFilledAt (cutCore im rows cols style seed env) rc.1 rc.2 px py := by
    intro hdegs
    have hrow := rect_row_unique ⟨rows, cols, im.width, im.height⟩ hr hh
      ((py : ℚ) + 1/2) hy0 hy1
    have hcol := rect_col_unique ⟨rows, cols, im.width, im.height⟩ hc hw
      ((px : ℚ) + 1/2) hx0 hx1
    have hpair := existsUnique_pair hrow hcol
    apply existsUnique_congr_imp _ hpair
    intro rc
    constructor
    · rintro ⟨⟨h1, hlo, hhi⟩, h2, hlo', hhi'⟩
      exact ⟨h1, h2, (filledAt_iff_rect im rows cols style seed env rc.1 rc.2
        px py h1 h2 (hdegs rc.1 rc.2 h1 h2)).mpr ⟨hlo', hhi', hlo, hhi⟩⟩
    · rintro ⟨h1, h2, h3⟩
      obtain ⟨ha, hb, hc', hd⟩ := (filledAt_iff_rect im rows cols style seed env
        rc.1 rc.2 px py h1 h2 (hdegs rc.1 rc.2 h1 h2)).mp h3
      exact ⟨⟨h1, hc', hd⟩, h2, ha, hb⟩
  constructor
  · intro hwarn
    apply curvedCore
    intro r c hrr hcc
    have hnw : (r * cols + c) ∉ (cutCore im rows cols style seed env).warnings := by
      rw [hwarn]
      exact List.not_mem_nil _
    rw [warnings_iff im rows cols style seed env r c hrr hcc,
      Bool.not_eq_true] at hnw
    exact hnw
  · intro hfail
    have hdeg : ∀ r c, r < rows → c < cols →
        (mkPiece ⟨rows, cols, im.width, im.height⟩ (EdgeTable.build style seed)
          style env r c).degraded = (style == CuttingStyle.classic) := by
      intro r c _ _
      simp only [mkPiece]
      rw [hfail (r * cols + c)]
      simp
    cases hcl : (style == CuttingStyle.classic) with
    | false =>
      apply curvedCore
      intro r c hrr hcc
      rw [hdeg r c hrr hcc, hcl]
    | true =>
      apply rectCore
      intro r c hrr hcc
      rw [hdeg r c hrr hcc, hcl]

/-- Witness for C2: on a 2-by-2 geometric cut of a 4-by-4 image with no
degradation, source pixel `(1, 1)` lies in exactly one piece. -/
theorem tiling_exactly_once_witness :
    1 ≤ 2 ∧ (1 : Nat) < 4 ∧
    (cutCore ⟨4, 4⟩ 2 2 .geometric 0 (fun _ => [true])).warnings = [] ∧
    ∃! rc : Nat × Nat, rc.1 < 2 ∧ rc.2 < 2 ∧
      pieceFilledAt (cutCore ⟨4, 4⟩ 2 2 .geometric 0 (fun _ => [true]))
        rc.1 rc.2 1 1 := by
  refine ⟨by decide, by decide, by decide, ?_⟩
  exact (tiling_exactly_once ⟨4, 4⟩ 2 2 .geometric 0 (fun _ => [true])
    (by decide) (by decide) (by decide) (by decide) 1 1
    (by decide) (by decide)).1 (by decide)

end Tessellate
